import Mathlib

/-!
Shallow embedding of the Media-Search ranking engine (backend services:
vocabulary, metadata_matcher, query_parser, query_expansion, search,
bm25_matcher, clustering_service, and the diversity re-ranking pass of
main.py), together with proofs of the behavioural claims about it.

Python strings are modelled as lists of characters (`PyStr`), Python floats
as rationals (`ℚ`).  Calls into the ML models (text/image encoders, the
sigmoid calibration built on `math.exp`, `math.log` inside BM25) are
irrational-valued external computations; they are passed in as function
parameters, so every theorem below holds for an arbitrary such function.
-/

set_option maxHeartbeats 1000000

namespace MediaSearch

/-- Python strings, modelled as lists of characters. -/
abbrev PyStr := List Char

/-- ASCII uppercase-to-lowercase pairs; models Python `str.lower` on the
ASCII alphabet (every string in the vocabulary tables is ASCII). -/
def lowerPairs : List (Char × Char) :=
  [('A','a'),('B','b'),('C','c'),('D','d'),('E','e'),('F','f'),('G','g'),
   ('H','h'),('I','i'),('J','j'),('K','k'),('L','l'),('M','m'),('N','n'),
   ('O','o'),('P','p'),('Q','q'),('R','r'),('S','s'),('T','t'),('U','u'),
   ('V','v'),('W','w'),('X','x'),('Y','y'),('Z','z')]

/-- Lower-case a single character (identity off the ASCII uppercase range). -/
def lowerChar (c : Char) : Char :=
  match lowerPairs.find? (fun p => p.1 == c) with
  | some p => p.2
  | none => c

/-- Model of Python `str.lower`. -/
def pyLower (s : PyStr) : PyStr := s.map lowerChar

/-- Whitespace characters recognised by Python `str.strip()` / `str.split()`. -/
def isWs (c : Char) : Bool :=
  c == ' ' || c == '\t' || c == '\n' || c == '\r' || c == '\x0b' || c == '\x0c'

def dropLeadingWs (s : PyStr) : PyStr := s.dropWhile isWs

def dropTrailingWs (s : PyStr) : PyStr := (s.reverse.dropWhile isWs).reverse

/-- Model of Python `str.strip()` (no argument: strips whitespace). -/
def pyStrip (s : PyStr) : PyStr := dropTrailingWs (dropLeadingWs s)

/-- Helper for `splitWs`; `acc` holds the current word, reversed. -/
def splitWsAux : PyStr → PyStr → List PyStr
  | [], acc => if acc.isEmpty then [] else [acc.reverse]
  | c :: rest, acc =>
    if isWs c then
      if acc.isEmpty then splitWsAux rest [] else acc.reverse :: splitWsAux rest []
    else splitWsAux rest (c :: acc)

/-- Model of Python `str.split()` (no argument: split on whitespace runs,
discarding empty pieces). -/
def splitWs (s : PyStr) : List PyStr := splitWsAux s []

/-- Model of the Python substring test `needle in hay`. -/
def pyContains (hay needle : PyStr) : Bool :=
  (List.range (hay.length + 1)).any (fun i => needle.isPrefixOf (hay.drop i))

/-- Model of Python `s.endswith(suf)`. -/
def pyEndsWith (s suf : PyStr) : Bool := suf.isSuffixOf s

/-- Truthiness of an optional Python string (`None` and `""` are falsy). -/
def pyTruthy (o : Option PyStr) : Bool :=
  match o with
  | none => false
  | some s => !s.isEmpty

/-- Convert a list of Lean string literals into the `PyStr` model. -/
def strL (l : List String) : List PyStr := l.map String.data

/-! ## services/vocabulary.py -/

def OBJECT_SYNONYMS : List (PyStr × List PyStr) :=
  [("person".data, strL ["man", "woman", "boy", "girl", "child", "human", "people", "guy", "lady", "kid"]),
   ("vehicle".data, strL ["car", "truck", "bus", "motorcycle", "bike", "automobile", "van"]),
   ("animal".data, strL ["dog", "cat", "bird", "horse", "cow", "pet"]),
   ("building".data, strL ["house", "apartment", "skyscraper", "office", "store", "shop"])]

def ACTION_SYNONYMS : List (PyStr × List PyStr) :=
  [("walking".data, strL ["walk", "strolling", "slow walking", "ambling"]),
   ("running".data, strL ["run", "jogging", "sprinting", "dashing"]),
   ("sitting".data, strL ["sit", "seated", "resting"]),
   ("standing".data, strL ["stand", "upright", "waiting"]),
   ("eating".data, strL ["eat", "dining", "having food"]),
   ("talking".data, strL ["talk", "speaking", "chatting", "conversing"])]

def TIME_SYNONYMS : List (PyStr × List PyStr) :=
  [("day".data, strL ["daytime", "afternoon", "midday", "bright"]),
   ("night".data, strL ["nighttime", "dark", "evening", "midnight"]),
   ("sunset".data, strL ["dusk", "twilight", "golden hour"]),
   ("dawn".data, strL ["sunrise", "early morning", "daybreak"])]

def SCENE_SYNONYMS : List (PyStr × List PyStr) :=
  [("street".data, strL ["road", "sidewalk", "pavement", "avenue"]),
   ("indoor".data, strL ["inside", "interior", "room", "indoors"]),
   ("outdoor".data, strL ["outside", "exterior", "outdoors"]),
   ("beach".data, strL ["shore", "seaside", "coast"]),
   ("park".data, strL ["garden", "green space", "lawn"]),
   ("city".data, strL ["urban", "downtown", "metropolitan"])]

/-- `vocabulary.normalize_object`: map an object term to its canonical
category name when it is a known synonym, else return it lower-cased and
stripped. -/
def normalize_object (obj : PyStr) : PyStr :=
  let obj_lower := pyStrip (pyLower obj)
  match OBJECT_SYNONYMS.find? (fun p => obj_lower == p.1 || p.2.contains obj_lower) with
  | some p => p.1
  | none => obj_lower

/-- `vocabulary.get_object_hierarchy`: `[obj, category]` when `obj` is a
member of a category, else `[obj]` (the Python source returns `[obj_lower]`
both when `obj_lower` is itself a category key and when it is unknown). -/
def get_object_hierarchy (obj : PyStr) : List PyStr :=
  let obj_lower := pyLower obj
  match OBJECT_SYNONYMS.find? (fun p => p.2.contains obj_lower) with
  | some p => [obj_lower, p.1]
  | none =>
    if OBJECT_SYNONYMS.any (fun p => p.1 == obj_lower) then [obj_lower] else [obj_lower]

/-- `vocabulary.get_action_similarity`: 1.0 exact, 0.8 same canonical
action group, 0 otherwise (0 when either argument is `None`/empty). -/
def get_action_similarity (action1 action2 : Option PyStr) : ℚ :=
  if !pyTruthy action1 || !pyTruthy action2 then 0
  else
    let a1 := pyStrip (pyLower (action1.getD []))
    let a2 := pyStrip (pyLower (action2.getD []))
    if a1 == a2 then 1
    else if ACTION_SYNONYMS.any (fun p =>
        (a1 == p.1 || p.2.contains a1) && (a2 == p.1 || p.2.contains a2)) then 0.8
    else 0

/-! ## services/metadata_matcher.py -/

/-- The attribute dictionary produced by `parse_query` (all keys always
present; `raw_query` carries the original query text). -/
structure QueryAttrs where
  objects : List PyStr
  action : Option PyStr
  time : Option PyStr
  scene : Option PyStr
  weather : Option PyStr
  emotion : Option PyStr
  raw_query : PyStr
deriving DecidableEq

/-- The structured-metadata payload of an indexed image, restricted to the
fields the matcher reads (absent keys are `none` / the empty list). -/
structure ImageMeta where
  objects : List PyStr
  action : Option PyStr
  time : Option PyStr
  scene : Option PyStr
  weather : Option PyStr
  emotion : Option PyStr
deriving DecidableEq

/-- Per-attribute weights used by `compute_match_score`. -/
structure MatchWeights where
  objects : ℚ
  action : ℚ
  time : ℚ
  scene : ℚ
  weather : ℚ
  emotion : ℚ
deriving DecidableEq

/-- Default weights of `compute_match_score` (used when `weights is None`). -/
def default_weights : MatchWeights :=
  { objects := 0.3, action := 0.3, time := 0.2, scene := 0.1, weather := 0.05, emotion := 0.05 }

/-- `metadata_matcher.match_objects`: hierarchy-aware best score over all
query-object / image-object pairs. -/
def match_objects (query_objects image_objects : List PyStr) : ℚ :=
  if query_objects.isEmpty || image_objects.isEmpty then 0
  else
    let query_normalized := query_objects.map normalize_object
    let image_normalized := image_objects.map normalize_object
    query_normalized.foldl (fun best q_obj =>
      let q_hierarchy := get_object_hierarchy q_obj
      image_normalized.foldl (fun best i_obj =>
        let i_hierarchy := get_object_hierarchy i_obj
        if q_obj == i_obj then max best 1
        else if decide (1 < q_hierarchy.length) && i_hierarchy.contains (q_hierarchy.getD 1 []) then
          max best 0.8
        else if decide (1 < i_hierarchy.length) && q_hierarchy.contains (i_hierarchy.getD 1 []) then
          max best 0.9
        else if q_hierarchy.getLastD [] == i_hierarchy.getLastD [] then max best 0.6
        else best) best) 0

def night_variants : List PyStr := strL ["night", "nighttime", "dark", "evening", "midnight"]

def day_variants : List PyStr := strL ["day", "daytime", "afternoon", "bright", "midday"]

/-- `metadata_matcher.match_time`: exact 1.0, same coarse day/night bucket
0.9, else 0. -/
def match_time (query_time : PyStr) (image_time : Option PyStr) : ℚ :=
  if !pyTruthy image_time then 0
  else
    let q := pyLower query_time
    let i := pyLower (image_time.getD [])
    if q == i then 1
    else if night_variants.contains q && night_variants.contains i then 0.9
    else if day_variants.contains q && day_variants.contains i then 0.9
    else 0

/-- `metadata_matcher.match_exact_or_zero`: case-insensitive exact match or 0. -/
def match_exact_or_zero (query_val : PyStr) (image_val : Option PyStr) : ℚ :=
  if !pyTruthy image_val then 0
  else if pyLower query_val == pyLower (image_val.getD []) then 1
  else 0

/-- `metadata_matcher.compute_match_score`: weighted mean over the
attributes present in the query (an absent query attribute contributes to
neither numerator nor denominator; all absent gives 0). -/
def compute_match_score (query_attrs : QueryAttrs) (image_metadata : ImageMeta)
    (weights : Option MatchWeights) : ℚ :=
  let w := match weights with
    | none => default_weights
    | some x => x
  let acc0 : ℚ × ℚ := (0, 0)
  let acc1 := if !query_attrs.objects.isEmpty then
      (acc0.1 + match_objects query_attrs.objects image_metadata.objects * w.objects,
       acc0.2 + w.objects)
    else acc0
  let acc2 := if pyTruthy query_attrs.action then
      (acc1.1 + get_action_similarity query_attrs.action image_metadata.action * w.action,
       acc1.2 + w.action)
    else acc1
  let acc3 := if pyTruthy query_attrs.time then
      (acc2.1 + match_time (query_attrs.time.getD []) image_metadata.time * w.time,
       acc2.2 + w.time)
    else acc2
  let acc4 := if pyTruthy query_attrs.scene then
      (acc3.1 + match_exact_or_zero (query_attrs.scene.getD []) image_metadata.scene * w.scene,
       acc3.2 + w.scene)
    else acc3
  let acc5 := if pyTruthy query_attrs.weather then
      (acc4.1 + match_exact_or_zero (query_attrs.weather.getD []) image_metadata.weather * w.weather,
       acc4.2 + w.weather)
    else acc4
  let acc6 := if pyTruthy query_attrs.emotion then
      (acc5.1 + match_exact_or_zero (query_attrs.emotion.getD []) image_metadata.emotion * w.emotion,
       acc5.2 + w.emotion)
    else acc5
  if acc6.2 = 0 then 0 else acc6.1 / acc6.2

/-- Level-1 relaxation of one object term (`apply_relaxation` inner loop):
replace the normalised term by its category when it is a member of one. -/
def relax_object (obj : PyStr) : PyStr :=
  let normalized := normalize_object obj
  match OBJECT_SYNONYMS.find? (fun p => p.2.contains normalized) with
  | some p => p.1
  | none => normalized

/-- `metadata_matcher.apply_relaxation`: level 1 relaxes objects to their
categories, level 2 additionally clears scene, level 3 additionally clears
weather and emotion; action and time are never touched. -/
def apply_relaxation (query_attrs : QueryAttrs) (level : ℕ) : QueryAttrs :=
  let relaxed := query_attrs
  let relaxed := if 1 ≤ level then
      (if !relaxed.objects.isEmpty then
        { relaxed with objects := relaxed.objects.map relax_object }
      else relaxed)
    else relaxed
  let relaxed := if 2 ≤ level then { relaxed with scene := none } else relaxed
  let relaxed := if 3 ≤ level then { relaxed with weather := none, emotion := none } else relaxed
  relaxed

/-! ## services/query_parser.py -/

/-- All object vocabulary terms (category keys and synonyms); the Python
source collects them into a set and only tests membership. -/
def all_object_terms : List PyStr :=
  (OBJECT_SYNONYMS.map (fun p => p.1 :: p.2)).flatten

def all_action_terms : List PyStr :=
  (ACTION_SYNONYMS.map (fun p => p.1 :: p.2)).flatten

def all_time_terms : List PyStr :=
  (TIME_SYNONYMS.map (fun p => p.1 :: p.2)).flatten

def all_scene_terms : List PyStr :=
  (SCENE_SYNONYMS.map (fun p => p.1 :: p.2)).flatten

def person_patterns : List PyStr :=
  strL ["young man", "old man", "young woman", "old woman", "little boy", "little girl"]

def weather_terms : List PyStr :=
  strL ["sunny", "rainy", "cloudy", "snowy", "foggy", "stormy", "clear"]

def emotion_terms : List PyStr :=
  strL ["happy", "sad", "angry", "surprised", "scared", "smiling", "laughing", "crying"]

/-- `query_parser.parse_query`: extract explicit attributes from the query
text.  Note that the second action pass (the "-ing" heuristic) runs
unconditionally and overwrites any action found by the vocabulary pass. -/
def parse_query (query : PyStr) : QueryAttrs :=
  let query_lower := pyStrip (pyLower query)
  let tokens := splitWs query_lower
  let objects1 := tokens.filter (fun t => all_object_terms.contains t)
  let objects2 := person_patterns.filterMap (fun pat =>
    if pyContains query_lower pat then some ((splitWs pat).getLastD []) else none)
  let action1 := tokens.find? (fun t => all_action_terms.contains t)
  let action2 := tokens.find? (fun t =>
    pyEndsWith t "ing".data && !all_action_terms.contains t)
  let time1 := tokens.find? (fun t => all_time_terms.contains t)
  let time :=
    if pyContains query_lower "at night".data || pyContains query_lower "during night".data then
      some "night".data
    else if pyContains query_lower "at day".data || pyContains query_lower "during day".data ||
        pyContains query_lower "daytime".data then
      some "day".data
    else time1
  let scene1 := tokens.find? (fun t => all_scene_terms.contains t)
  let scene :=
    if pyContains query_lower "on the street".data || pyContains query_lower "on street".data then
      some "street".data
    else if pyContains query_lower "at the beach".data || pyContains query_lower "on beach".data then
      some "beach".data
    else if pyContains query_lower "in the park".data || pyContains query_lower "at park".data then
      some "park".data
    else scene1
  { objects := objects1 ++ objects2
    action := action2 <|> action1
    time := time
    scene := scene
    weather := weather_terms.find? (fun term => pyContains query_lower term)
    emotion := emotion_terms.find? (fun term => pyContains query_lower term)
    raw_query := query }

/-- `query_parser.get_query_importance`: fixed importance weights. -/
def get_query_importance (_parsed : QueryAttrs) : MatchWeights :=
  { objects := 0.7, action := 1.0, time := 0.9, scene := 0.6, weather := 0.4, emotion := 0.5 }

/-! ## services/query_expansion.py -/

def QUERY_EXPANSIONS : List (PyStr × List PyStr) :=
  [("dog".data, strL ["dog", "puppy", "canine", "pet", "animal", "pup"]),
   ("cat".data, strL ["cat", "kitten", "feline", "pet", "animal"]),
   ("bird".data, strL ["bird", "birds", "avian", "feather"]),
   ("horse".data, strL ["horse", "pony", "equine", "foal"]),
   ("person".data, strL ["person", "people", "human", "face", "portrait", "guy", "girl", "man", "woman"]),
   ("child".data, strL ["child", "kid", "children", "infant", "baby", "toddler"]),
   ("baby".data, strL ["baby", "infant", "newborn", "toddler"]),
   ("outdoor".data, strL ["outdoor", "nature", "outside", "exterior", "landscape", "scenery"]),
   ("indoor".data, strL ["indoor", "inside", "interior", "building", "room"]),
   ("mountain".data, strL ["mountain", "mountains", "peak", "alpine", "summit"]),
   ("beach".data, strL ["beach", "sand", "shore", "coast", "ocean"]),
   ("forest".data, strL ["forest", "woods", "woodland", "trees", "nature"]),
   ("city".data, strL ["city", "urban", "downtown", "street", "building"]),
   ("park".data, strL ["park", "garden", "outdoor", "nature"]),
   ("sunset".data, strL ["sunset", "dusk", "evening", "sunrise", "dawn", "golden hour"]),
   ("sunrise".data, strL ["sunrise", "dawn", "morning", "golden hour"]),
   ("rain".data, strL ["rain", "rainy", "wet", "weather", "storm"]),
   ("snow".data, strL ["snow", "snowy", "winter", "cold", "frost"]),
   ("cloud".data, strL ["cloud", "cloudy", "clouds", "sky", "overcast"]),
   ("sky".data, strL ["sky", "blue sky", "clouds", "weather", "atmosphere"]),
   ("water".data, strL ["water", "ocean", "sea", "lake", "river", "splash"]),
   ("tree".data, strL ["tree", "trees", "forest", "nature", "wood"]),
   ("flower".data, strL ["flower", "flowers", "bloom", "blossom", "floral"]),
   ("food".data, strL ["food", "eating", "meal", "cuisine", "dish", "eat"]),
   ("drink".data, strL ["drink", "beverage", "coffee", "tea", "water"]),
   ("car".data, strL ["car", "vehicle", "automobile", "truck", "sedan"]),
   ("bike".data, strL ["bike", "bicycle", "motorcycle", "cycle"]),
   ("phone".data, strL ["phone", "mobile", "smartphone", "device"]),
   ("book".data, strL ["book", "reading", "literature", "novel", "text"]),
   ("running".data, strL ["running", "running", "jogging", "sprint", "active"]),
   ("walking".data, strL ["walking", "walk", "stroll", "hiking"]),
   ("jumping".data, strL ["jumping", "jump", "leap", "bounce"]),
   ("playing".data, strL ["playing", "play", "game", "sport", "recreation"]),
   ("swimming".data, strL ["swimming", "swim", "water", "pool", "beach"]),
   ("dancing".data, strL ["dancing", "dance", "movement", "performance"]),
   ("sleeping".data, strL ["sleeping", "sleep", "rest", "bed"]),
   ("blue".data, strL ["blue", "azure", "navy", "cyan", "turquoise"]),
   ("red".data, strL ["red", "crimson", "scarlet", "ruby", "pink"]),
   ("green".data, strL ["green", "lime", "forest", "emerald", "olive"]),
   ("yellow".data, strL ["yellow", "golden", "gold", "amber", "orange"]),
   ("black".data, strL ["black", "dark", "shadow", "noir"]),
   ("white".data, strL ["white", "light", "bright", "pale", "snow"]),
   ("happy".data, strL ["happy", "joyful", "smile", "joy", "cheerful"]),
   ("sad".data, strL ["sad", "unhappy", "melancholy", "tears", "sorrow"]),
   ("calm".data, strL ["calm", "peaceful", "serene", "quiet", "tranquil"]),
   ("busy".data, strL ["busy", "crowded", "hectic", "active", "chaos"]),
   ("dark".data, strL ["dark", "night", "shadow", "dim", "nighttime"]),
   ("bright".data, strL ["bright", "light", "sunny", "illuminated", "clear"]),
   ("cold".data, strL ["cold", "winter", "frost", "snow", "chill"]),
   ("hot".data, strL ["hot", "warm", "summer", "heat", "sunny"]),
   ("beautiful".data, strL ["beautiful", "pretty", "gorgeous", "stunning", "lovely"]),
   ("ugly".data, strL ["ugly", "unattractive", "unsightly", "poor"]),
   ("old".data, strL ["old", "ancient", "vintage", "historic", "aged"]),
   ("new".data, strL ["new", "modern", "fresh", "contemporary", "recent"]),
   ("clean".data, strL ["clean", "neat", "tidy", "organized", "spotless"]),
   ("dirty".data, strL ["dirty", "messy", "dusty", "grimy", "unclean"]),
   ("portrait".data, strL ["portrait", "headshot", "face", "person", "selfie"]),
   ("landscape".data, strL ["landscape", "wide", "scenery", "nature", "vista"]),
   ("close-up".data, strL ["close-up", "macro", "detail", "zoom", "magnified"]),
   ("wide".data, strL ["wide", "landscape", "broad", "expansive", "panoramic"]),
   ("black and white".data, strL ["black and white", "monochrome", "bw", "grayscale"])]

/-- Association-list lookup, modelling Python `dict` read access. -/
def lookupA {κ β : Type} [BEq κ] (m : List (κ × β)) (k : κ) : Option β :=
  (m.find? (fun p => p.1 == k)).map (fun p => p.2)

/-- Association-list write, modelling Python `dict` assignment (replace in
place if the key exists, else append). -/
def setA {κ β : Type} [BEq κ] (m : List (κ × β)) (k : κ) (v : β) : List (κ × β) :=
  if m.any (fun p => p.1 == k) then
    m.map (fun p => if p.1 == k then (k, v) else p)
  else m ++ [(k, v)]

/-- Model of Python `dict.update` (the entries of `m₂` overwrite `m₁`). -/
def updateA {κ β : Type} [BEq κ] (m₁ m₂ : List (κ × β)) : List (κ × β) :=
  m₂.foldl (fun acc p => setA acc p.1 p.2) m₁

/-- The lower-cased-key copy of the expansion table. -/
def QUERY_EXPANSIONS_LOWER : List (PyStr × List PyStr) :=
  QUERY_EXPANSIONS.map (fun p => (pyLower p.1, p.2))

/-- `query_expansion.expand_query_multi_word`: expand each word of the
query, preserving order and de-duplicating.  The Python code also keeps a
`seen` set; its members always coincide with the members of `ordered`, so
membership is tested on `ordered` here. -/
def expand_query_multi_word (query : PyStr) : List PyStr :=
  let query_lower := pyStrip (pyLower query)
  let words := splitWs query_lower
  words.foldl (fun ordered word =>
    let candidates := (lookupA QUERY_EXPANSIONS_LOWER word).getD [word]
    candidates.foldl (fun ordered term =>
      let t := pyLower (pyStrip term)
      if t.isEmpty || ordered.contains t then ordered else ordered ++ [t]) ordered) []

/-- First-occurrence de-duplication of a list of words (specification-side
helper: what `expand_query_multi_word` degenerates to when no word of the
query is in the expansion table). -/
def dedupFirst (l : List PyStr) : List PyStr :=
  l.foldl (fun acc t => if acc.contains t then acc else acc ++ [t]) []

/-! ## Generic sorting helper

Python `list.sort(key=..., reverse=True)` / `sorted(..., reverse=True)` is a
stable sort in descending key order; it is modelled by a stable insertion
sort: a new element is placed after every already-placed element whose key
is greater than or equal to its own. -/

def insertDesc {α : Type} (key : α → ℚ) (x : α) : List α → List α
  | [] => [x]
  | y :: ys => if key y < key x then x :: y :: ys else y :: insertDesc key x ys

def sortDesc {α : Type} (key : α → ℚ) (l : List α) : List α :=
  l.foldl (fun acc x => insertDesc key x acc) []

/-! ## services/search.py — normal_search -/

/-- One raw hit returned by the external vector index (`qdrant.search_images`):
an image id, the raw similarity score and an opaque metadata payload. -/
structure Hit (μ : Type) where
  id : ℕ
  score : ℚ
  metadata : μ
deriving DecidableEq

/-- The per-image record built inside `normal_search`. -/
structure NRecord (μ : Type) where
  id : ℕ
  metadata : μ
  score : ℚ
  raw_score : ℚ
  matched_term : PyStr
deriving DecidableEq

/-- The fields of the result dictionaries produced by `normal_search` that
are representable with an opaque metadata payload. -/
structure NOut (μ : Type) where
  id : ℕ
  score : ℚ
  matched_term : PyStr
  metadata : μ
deriving DecidableEq

/-- Penalty applied to synonym-term hits in `normal_search`. -/
def expansion_penalty : ℚ := 0.85

/-- The `query.strip().lower()` normalisation of `normal_search`. -/
def normalized_query (query : PyStr) : PyStr := pyLower (pyStrip query)

/-- The ordered term list of `normal_search`: exact query first, then the
expansion terms other than the exact query. -/
def ordered_terms (query : PyStr) : List PyStr :=
  let nq := normalized_query query
  nq :: (expand_query_multi_word query).filter (fun t => t != nq)

/-- The bound on searched terms in `normal_search`. -/
def max_terms (query : PyStr) : ℕ :=
  let nq := normalized_query query
  let m := if (splitWs nq).length ≤ 2 then 6 else 10
  min m (ordered_terms query).length

/-- The best-score map update of `normal_search` (store the record if the
image is new or the new score is strictly greater). -/
def bestInsert {μ : Type} (m : List (ℕ × NRecord μ)) (r : NRecord μ) :
    List (ℕ × NRecord μ) :=
  match lookupA m r.id with
  | none => setA m r.id r
  | some prev => if prev.score < r.score then setA m r.id r else m

/-- The inner result loop of `normal_search` for one term: route each hit to
the direct map (verbatim term) or to the expanded map (penalised). -/
def processHits {μ : Type} (calibrate : ℚ → ℚ) (nq term : PyStr) (hits : List (Hit μ))
    (maps : List (ℕ × NRecord μ) × List (ℕ × NRecord μ)) :
    List (ℕ × NRecord μ) × List (ℕ × NRecord μ) :=
  hits.foldl (fun maps r =>
    let calibrated_score := calibrate r.score
    let record : NRecord μ :=
      { id := r.id
        metadata := r.metadata
        score := calibrated_score
        raw_score := r.score
        matched_term := term }
    if term == nq then (bestInsert maps.1 record, maps.2)
    else
      let record := { record with score := record.score * expansion_penalty }
      (maps.1, bestInsert maps.2 record)) maps

/-- The term loop of `normal_search`, producing the pair
(direct best-score map, expanded best-score map). -/
def searchMaps {μ : Type} (calibrate : ℚ → ℚ) (searchFn : PyStr → ℕ → List (Hit μ))
    (query : PyStr) (top_k : ℕ) : List (ℕ × NRecord μ) × List (ℕ × NRecord μ) :=
  let nq := normalized_query query
  ((ordered_terms query).take (max_terms query)).foldl
    (fun maps term => processHits calibrate nq term (searchFn term (min top_k 10)) maps)
    ([], [])

/-- `search.normal_search`, parametrised by the score calibration function
and the external vector index (a function from term and requested count to
hits). -/
def normal_search {μ : Type} (calibrate : ℚ → ℚ) (searchFn : PyStr → ℕ → List (Hit μ))
    (query : PyStr) (top_k : ℕ) : List (NOut μ) :=
  let maps := searchMaps calibrate searchFn query top_k
  let all_results := updateA maps.2 maps.1
  if all_results.isEmpty then []
  else
    let sorted_results := sortDesc (fun r => r.score) (all_results.map (fun p => p.2))
    (sorted_results.take top_k).map (fun r =>
      { id := r.id, score := r.score, matched_term := r.matched_term, metadata := r.metadata })

/-- The keys of an association list. -/
def keysA {κ β : Type} (m : List (κ × β)) : List κ := m.map Prod.fst

/-- Folding a stream of records into a best-score map. -/
def bestFold {μ : Type} (m : List (ℕ × NRecord μ)) (rs : List (NRecord μ)) :
    List (ℕ × NRecord μ) :=
  rs.foldl bestInsert m

/-- The record built by `normal_search` for one hit of one searched term. -/
def hitRecord {μ : Type} (calibrate : ℚ → ℚ) (term : PyStr) (r : Hit μ) : NRecord μ :=
  { id := r.id
    metadata := r.metadata
    score := calibrate r.score
    raw_score := r.score
    matched_term := term }

/-- The records built by `normal_search` for one searched term. -/
def termRecords {μ : Type} (calibrate : ℚ → ℚ) (term : PyStr) (hits : List (Hit μ)) :
    List (NRecord μ) :=
  hits.map (hitRecord calibrate term)

/-- The ×0.85 penalty applied to a synonym-term record. -/
def penalizeRecord {μ : Type} (r : NRecord μ) : NRecord μ :=
  { r with score := r.score * expansion_penalty }

/-- The stream of records that `normal_search` routes into the direct map. -/
def directRecords {μ : Type} (calibrate : ℚ → ℚ) (searchFn : PyStr → ℕ → List (Hit μ))
    (nq : PyStr) (terms : List PyStr) (top_k : ℕ) : List (NRecord μ) :=
  (terms.map (fun term =>
    if term == nq then termRecords calibrate term (searchFn term (min top_k 10))
    else [])).flatten

/-- The stream of penalised records that `normal_search` routes into the
expanded map. -/
def expandedRecords {μ : Type} (calibrate : ℚ → ℚ) (searchFn : PyStr → ℕ → List (Hit μ))
    (nq : PyStr) (terms : List PyStr) (top_k : ℕ) : List (NRecord μ) :=
  (terms.map (fun term =>
    if term == nq then []
    else (termRecords calibrate term (searchFn term (min top_k 10))).map penalizeRecord)).flatten

/-- Descending score order with ties broken by smaller original index — the
order produced by Python's stable descending sort over index/score pairs
built in insertion order. -/
def RankOrder (a b : ℕ × ℚ) : Prop := b.2 < a.2 ∨ (a.2 = b.2 ∧ a.1 < b.1)

/-! ## services/search.py — deep_search -/

/-- One recalled candidate of `deep_search` (id, raw similarity, structured
metadata). -/
structure DHit where
  id : ℕ
  score : ℚ
  metadata : ImageMeta
deriving DecidableEq

/-- A scored candidate of `deep_search`. -/
structure ScoredCandidate where
  id : ℕ
  metadata : ImageMeta
  embedding_score : ℚ
  meta_score : ℚ
  combined_score : ℚ
deriving DecidableEq

/-- Step 3 of `deep_search`: initial metadata scoring and combination. -/
def deepInitialScore (calibrate : ℚ → ℚ) (query_attrs : QueryAttrs) (weights : MatchWeights)
    (candidates : List DHit) : List ScoredCandidate :=
  candidates.map (fun candidate =>
    let meta_score := compute_match_score query_attrs candidate.metadata (some weights)
    let embedding_score := calibrate candidate.score
    let combined_score := 0.6 * embedding_score + 0.4 * meta_score
    { id := candidate.id
      metadata := candidate.metadata
      embedding_score := embedding_score
      meta_score := meta_score
      combined_score := combined_score })

/-- The per-candidate update of the `deep_search` relaxation loop:
recompute the meta score against the relaxed attributes and overwrite the
stored scores only on strict improvement. -/
def relaxCandidate (relaxed_attrs : QueryAttrs) (weights : MatchWeights)
    (candidate : ScoredCandidate) : ScoredCandidate :=
  let new_meta_score := compute_match_score relaxed_attrs candidate.metadata (some weights)
  if candidate.meta_score < new_meta_score then
    { candidate with
      meta_score := new_meta_score
      combined_score := 0.6 * candidate.embedding_score + 0.4 * new_meta_score }
  else candidate

/-- One relaxation level of the `deep_search` loop. -/
def relaxPass (query_attrs : QueryAttrs) (weights : MatchWeights) (level : ℕ)
    (cs : List ScoredCandidate) : List ScoredCandidate :=
  let relaxed_attrs := apply_relaxation query_attrs level
  cs.map (relaxCandidate relaxed_attrs weights)

/-- The candidates clearing the 0.5 combined-score threshold. -/
def good_results (cs : List ScoredCandidate) : List ScoredCandidate :=
  cs.filter (fun c => decide ((0.5:ℚ) < c.combined_score))

/-- The level loop of `deep_search` step 4, with early stop once enough
candidates clear the threshold. -/
def relaxLoop (query_attrs : QueryAttrs) (weights : MatchWeights) (top_k : ℕ) :
    List ℕ → List ScoredCandidate → List ScoredCandidate
  | [], cs => cs
  | level :: levels, cs =>
    let cs := relaxPass query_attrs weights level cs
    if top_k ≤ (good_results cs).length then cs
    else relaxLoop query_attrs weights top_k levels cs

/-- Step 4 of `deep_search`: the relaxation block, gated on having fewer
than `top_k` good results. -/
def deepRelaxation (query_attrs : QueryAttrs) (weights : MatchWeights) (top_k : ℕ)
    (cs : List ScoredCandidate) : List ScoredCandidate :=
  if (good_results cs).length < top_k then
    relaxLoop query_attrs weights top_k [1, 2, 3] cs
  else cs

/-- The stored-score invariant of `deep_search`: the combined score is
always the 0.6/0.4 combination of the embedding and meta scores. -/
def ScoreInv (c : ScoredCandidate) : Prop :=
  c.combined_score = 0.6 * c.embedding_score + 0.4 * c.meta_score

/-- Per-candidate monotonicity of the stored scores. -/
def ScoreMono (c c' : ScoredCandidate) : Prop :=
  c.meta_score ≤ c'.meta_score ∧ c.combined_score ≤ c'.combined_score

/-- The output records of `deep_search` (restricted to id, score and the
metadata payload). -/
structure DOut where
  id : ℕ
  score : ℚ
  metadata : ImageMeta
deriving DecidableEq

/-- `search.deep_search`, parametrised by the calibration function and the
external vector recall. -/
def deep_search (calibrate : ℚ → ℚ) (recallFn : PyStr → List DHit)
    (query : PyStr) (top_k : ℕ) : List DOut :=
  let candidates := recallFn query
  if candidates.isEmpty then []
  else
    let query_attrs := parse_query query
    let weights := get_query_importance query_attrs
    let scored := deepInitialScore calibrate query_attrs weights candidates
    let relaxed := deepRelaxation query_attrs weights top_k scored
    let sorted := sortDesc (fun c => c.combined_score) relaxed
    (sorted.take top_k).map (fun r =>
      { id := r.id, score := r.combined_score, metadata := r.metadata })

/-! ## bm25_matcher.py -/

structure BM25Matcher where
  k1 : ℚ
  b : ℚ
  documents : List PyStr
  doc_lengths : List ℕ
  avg_doc_length : ℚ
  doc_freqs : List (PyStr × ℕ)
  idf : List (PyStr × ℚ)
  doc_count : ℕ

/-- `BM25Matcher.__init__`. -/
def BM25Matcher.init (k1 b : ℚ) : BM25Matcher :=
  { k1 := k1
    b := b
    documents := []
    doc_lengths := []
    avg_doc_length := 0
    doc_freqs := []
    idf := []
    doc_count := 0 }

/-- `BM25Matcher.tokenize`: lower-case, replace every character that is
neither a word character nor whitespace by a space, split on whitespace. -/
def bm25_tokenize (text : PyStr) : List PyStr :=
  splitWs ((pyLower text).map (fun c => if c.isAlphanum || c == '_' || isWs c then c else ' '))

/-- One document-frequency increment
(`doc_freqs[token] = doc_freqs.get(token, 0) + 1`). -/
def bumpFreq (m : List (PyStr × ℕ)) (token : PyStr) : List (PyStr × ℕ) :=
  setA m token ((lookupA m token).getD 0 + 1)

/-- `BM25Matcher.index_documents`, parametrised by the real logarithm used
for the IDF values (`math.log`).  Python iterates each document's tokens as
a set; the iteration order does not affect the resulting counts, so the
set is modelled by first-occurrence de-duplication. -/
def index_documents (log : ℚ → ℚ) (m : BM25Matcher) (documents : List PyStr) : BM25Matcher :=
  let doc_count := documents.length
  let tokenized_docs := documents.map bm25_tokenize
  let doc_lengths := tokenized_docs.map List.length
  let avg_doc_length : ℚ := if 0 < doc_count then ((doc_lengths.sum : ℕ) : ℚ) / (doc_count : ℚ) else 0
  let doc_freqs := tokenized_docs.foldl (fun freqs doc_tokens =>
      (dedupFirst doc_tokens).foldl bumpFreq freqs) []
  let idf := doc_freqs.map (fun p =>
      (p.1, log (((doc_count : ℚ) - (p.2 : ℚ) + 0.5) / ((p.2 : ℚ) + 0.5) + 1)))
  { m with
    documents := documents
    doc_count := doc_count
    doc_lengths := doc_lengths
    avg_doc_length := avg_doc_length
    doc_freqs := doc_freqs
    idf := idf }

/-- The per-query-token accumulation of `BM25Matcher.score_document`:
tokens absent from the IDF table contribute nothing, otherwise the BM25
term formula is added. -/
def scoreToken (m : BM25Matcher) (doc_tokens : List PyStr) (doc_length : ℚ)
    (score : ℚ) (token : PyStr) : ℚ :=
  match lookupA m.idf token with
  | none => score
  | some idf_val =>
    let tf : ℚ := (doc_tokens.count token : ℚ)
    let numerator := tf * (m.k1 + 1)
    let denominator := tf + m.k1 * (1 - m.b + m.b * (doc_length / m.avg_doc_length))
    score + idf_val * (numerator / denominator)

/-- `BM25Matcher.score_document`. -/
def score_document (m : BM25Matcher) (query : PyStr) (doc_index : ℕ) : ℚ :=
  if m.documents.length ≤ doc_index then 0
  else
    let query_tokens := bm25_tokenize query
    let doc_tokens := bm25_tokenize (m.documents.getD doc_index [])
    let doc_length : ℚ := (m.doc_lengths.getD doc_index 0 : ℚ)
    query_tokens.foldl (scoreToken m doc_tokens doc_length) 0

/-- `BM25Matcher.search`: score every document, keep strictly positive
scores, sort descending (stable) and truncate to `top_k`. -/
def BM25Matcher.search (m : BM25Matcher) (query : PyStr) (top_k : ℕ) : List (ℕ × ℚ) :=
  let scores := ((List.range m.documents.length).map
      (fun i => (i, score_document m query i))).filter (fun p => decide ((0:ℚ) < p.2))
  (sortDesc (fun p => p.2) scores).take top_k

/-! ## clustering_service.py — merge_clusters -/

structure FaceRow where
  id : ℕ
  cluster_id : Option ℕ
deriving DecidableEq

structure ClusterRow where
  id : ℕ
  name : PyStr
  representative_face_id : ℕ
  face_count : ℕ
deriving DecidableEq

structure FaceDB where
  faces : List FaceRow
  face_clusters : List ClusterRow
deriving DecidableEq

structure MergeStats where
  merged_cluster_id : ℕ
  clusters_merged : ℕ
deriving DecidableEq

def mergeErrMsg : String := "Need at least 2 clusters to merge"

/-- `ClusteringService.merge_clusters` over a relational-state model: with
fewer than two ids it raises `ValueError` before touching the database;
otherwise it reassigns the faces of every secondary cluster to the primary,
deletes the secondary cluster rows, and sets the primary's name and
face count (the count of faces now assigned to the primary). -/
def merge_clusters (db : FaceDB) (cluster_ids : List ℕ) (new_name : PyStr) :
    Except String (FaceDB × MergeStats) :=
  match cluster_ids with
  | primary_cluster_id :: second :: rest =>
    let secondary_cluster_ids := second :: rest
    let faces := secondary_cluster_ids.foldl (fun faces cluster_id =>
        faces.map (fun f => if f.cluster_id == some cluster_id then
            { f with cluster_id := some primary_cluster_id } else f)) db.faces
    let clusters := db.face_clusters.filter (fun c => !secondary_cluster_ids.contains c.id)
    let clusters := clusters.map (fun c =>
        if c.id == primary_cluster_id then
          { c with
            name := new_name
            face_count := (faces.filter (fun f => f.cluster_id == some primary_cluster_id)).length }
        else c)
    Except.ok ({ faces := faces, face_clusters := clusters },
      { merged_cluster_id := primary_cluster_id
        clusters_merged := secondary_cluster_ids.length + 1 })
  | _ => Except.error mergeErrMsg

/-! ## main.py — diversity re-ranking pass of search_images -/

structure RerankItem where
  image_id : ℕ
  score : ℚ
  global_score : ℚ
  local_score : ℚ
deriving DecidableEq

/-- Dot product of two embedding vectors (`np.dot`); on L2-normalised
vectors this is the cosine similarity. -/
def dot (a b : List ℚ) : ℚ := ((a.zip b).map (fun p => p.1 * p.2)).sum

/-- The diversity check of `search_images`: is the new embedding at
similarity at most 0.95 to every already-accepted embedding? -/
def isDiverseCheck (used_embeddings : List (List ℚ)) (img_embedding : List ℚ) : Bool :=
  used_embeddings.all (fun used_emb => decide (dot img_embedding used_emb ≤ 0.95))

/-- The diversity loop of `search_images`: iterate the score-sorted items;
skip items whose embedding cannot be obtained; accept an item only when its
similarity to every already-accepted embedding is at most 0.95; after each
processed item, stop once `top_k` results have been accepted. -/
def diversityLoop (get_embedding : ℕ → Option (List ℚ)) (top_k : ℕ) :
    List RerankItem → List RerankItem → List (List ℚ) → List RerankItem × List (List ℚ)
  | [], diverse_results, used_embeddings => (diverse_results, used_embeddings)
  | item :: rest, diverse_results, used_embeddings =>
    match get_embedding item.image_id with
    | none => diversityLoop get_embedding top_k rest diverse_results used_embeddings
    | some img_embedding =>
      let is_diverse := isDiverseCheck used_embeddings img_embedding
      let diverse_results := if is_diverse then diverse_results ++ [item] else diverse_results
      let used_embeddings := if is_diverse then used_embeddings ++ [img_embedding]
        else used_embeddings
      if top_k ≤ diverse_results.length then (diverse_results, used_embeddings)
      else diversityLoop get_embedding top_k rest diverse_results used_embeddings

/-- The diversity re-ranking pass: the accepted items, in acceptance order. -/
def diversity_rerank (get_embedding : ℕ → Option (List ℚ)) (top_k : ℕ)
    (reranked_results : List RerankItem) : List RerankItem :=
  (diversityLoop get_embedding top_k reranked_results [] []).1

/-- The net effect of the merge on one face row: a face assigned to any of
the secondary clusters is reassigned to the primary cluster; every other
face is untouched. -/
def reassign (primary : ℕ) (secondary : List ℕ) (f : FaceRow) : FaceRow :=
  match f.cluster_id with
  | some c => if c ∈ secondary then { f with cluster_id := some primary } else f
  | none => f

/-- Two embeddings are diverse when their similarity is at most 0.95, in
both argument orders. -/
def DiversePair (u v : List ℚ) : Prop := dot u v ≤ 0.95 ∧ dot v u ≤ 0.95

/-- The embedding the diversity pass obtained for an accepted item. -/
def EmbeddedAs (get_embedding : ℕ → Option (List ℚ)) (item : RerankItem)
    (e : List ℚ) : Prop :=
  get_embedding item.image_id = some e

/-! ## Concrete instances used by counterexamples and witnesses -/

/-- A parsed query with an object and a scene attribute (as produced for a
query like "man at the beach"). -/
def c2_attrs : QueryAttrs :=
  { objects := ["man".data]
    action := none
    time := none
    scene := some "beach".data
    weather := none
    emotion := none
    raw_query := [] }

/-- Image metadata whose scene matches `c2_attrs` but whose object does not. -/
def c2_meta : ImageMeta :=
  { objects := ["cat".data]
    action := none
    time := none
    scene := some "beach".data
    weather := none
    emotion := none }

/-- An embedding source for the diversity pass: every image has the same
unit embedding. -/
def c8_embed : ℕ → Option (List ℚ) := fun _ => some [1]

/-- Two scored items entering the diversity pass. -/
def c8_items : List RerankItem :=
  [{ image_id := 1, score := 1, global_score := 1, local_score := 0 },
   { image_id := 2, score := 1, global_score := 1, local_score := 0 }]

/-- Identity calibration for concrete instances. -/
def c5_calibrate : ℚ → ℚ := fun x => x

/-- A concrete vector-index stub: the verbatim query "dog" hits image 10;
the synonym "puppy" hits images 10 and 20; other terms hit nothing. -/
def c5_searchFn : PyStr → ℕ → List (Hit Unit) := fun t _ =>
  if t == "dog".data then [{ id := 10, score := 1, metadata := () }]
  else if t == "puppy".data then
    [{ id := 10, score := 3, metadata := () }, { id := 20, score := 2, metadata := () }]
  else []

/-- A face-clustering state with a 3-face cluster 1 and a 2-face cluster 2. -/
def c7_db : FaceDB :=
  { faces := [{ id := 1, cluster_id := some 1 }, { id := 2, cluster_id := some 1 },
              { id := 3, cluster_id := some 1 }, { id := 4, cluster_id := some 2 },
              { id := 5, cluster_id := some 2 }]
    face_clusters := [{ id := 1, name := "Person 1".data, representative_face_id := 1, face_count := 3 },
                      { id := 2, name := "Person 2".data, representative_face_id := 4, face_count := 2 }] }

/-! ## Theorems -/

/-- C4: `apply_relaxation` returns attributes whose action and time fields
are identical to the input's (it also preserves the raw query); only the
objects, scene, weather and emotion fields may differ, at every level. -/
theorem apply_relaxation_preserves_action_time (query_attrs : QueryAttrs) (level : ℕ) :
    (apply_relaxation query_attrs level).action = query_attrs.action ∧
    (apply_relaxation query_attrs level).time = query_attrs.time ∧
    (apply_relaxation query_attrs level).raw_query = query_attrs.raw_query := by
  refine ⟨?_, ?_, ?_⟩ <;>
    simp [apply_relaxation, apply_ite QueryAttrs.action, apply_ite QueryAttrs.time,
      apply_ite QueryAttrs.raw_query]

/-- C3: evaluating the object matcher at the claimed input: the object
sub-score for query objects ["man"] against image objects ["person"] is
1.0, not the claimed 0.8 — `match_objects` normalises both sides first,
"man" becomes "person", and the pair is then an exact match, so the
hierarchy branch the source's own comments describe is unreachable. -/
theorem match_objects_man_person_eq_one :
    match_objects ["man".data] ["person".data] = 1 ∧
    match_objects ["man".data] ["person".data] ≠ 0.8 := by
  have h1 : match_objects ["man".data] ["person".data] = 1 := by decide
  exact ⟨h1, by rw [h1]; norm_num⟩

/-- C10: the "-ing" heuristic pass of `parse_query` runs unconditionally
after the vocabulary pass and overwrites it: whenever some token of the
query ends in "ing" and is not in the action vocabulary, the parsed action
is the first such token, even if another token matched the vocabulary. -/
theorem parse_query_ing_overwrites (query t : PyStr)
    (h : (splitWs (pyStrip (pyLower query))).find?
        (fun tok => pyEndsWith tok "ing".data && !all_action_terms.contains tok) = some t) :
    (parse_query query).action = some t := by
  unfold parse_query
  simp only [h]
  rfl

/-- Witness for C10: in "man walking skiing", the token "walking" matches
the action vocabulary, yet the heuristic pass overwrites the action with
"skiing". -/
theorem parse_query_ing_overwrites_witness :
    (splitWs (pyStrip (pyLower "man walking skiing".data))).find?
        (fun tok => pyEndsWith tok "ing".data && !all_action_terms.contains tok) =
      some "skiing".data ∧
    (parse_query "man walking skiing".data).action = some "skiing".data :=
  ⟨by decide, parse_query_ing_overwrites "man walking skiing".data "skiing".data (by decide)⟩

/-! ### C1: stored scores never decrease across the relaxation loop -/

lemma scoreMono_refl (c : ScoredCandidate) : ScoreMono c c := ⟨le_refl _, le_refl _⟩

lemma scoreMono_trans {a b c : ScoredCandidate} (h1 : ScoreMono a b) (h2 : ScoreMono b c) :
    ScoreMono a c := ⟨le_trans h1.1 h2.1, le_trans h1.2 h2.2⟩

lemma forall₂_scoreMono_self (cs : List ScoredCandidate) : List.Forall₂ ScoreMono cs cs := by
  induction cs with
  | nil => exact List.Forall₂.nil
  | cons c cs ih => exact List.Forall₂.cons (scoreMono_refl c) ih

lemma forall₂_scoreMono_trans {l1 l2 l3 : List ScoredCandidate}
    (h1 : List.Forall₂ ScoreMono l1 l2) (h2 : List.Forall₂ ScoreMono l2 l3) :
    List.Forall₂ ScoreMono l1 l3 := by
  induction h1 generalizing l3 with
  | nil => cases h2; exact List.Forall₂.nil
  | cons hab h ih =>
    cases h2 with
    | cons hbc h2tail => exact List.Forall₂.cons (scoreMono_trans hab hbc) (ih h2tail)

lemma relaxCandidate_scoreInv (ra : QueryAttrs) (w : MatchWeights) {c : ScoredCandidate}
    (hc : ScoreInv c) : ScoreInv (relaxCandidate ra w c) := by
  unfold ScoreInv at *
  simp only [relaxCandidate]
  split
  · rfl
  · exact hc

lemma relaxCandidate_mono (ra : QueryAttrs) (w : MatchWeights) {c : ScoredCandidate}
    (hc : ScoreInv c) : ScoreMono c (relaxCandidate ra w c) := by
  unfold ScoreInv at hc
  unfold ScoreMono
  simp only [relaxCandidate]
  split
  · rename_i h
    refine ⟨le_of_lt h, ?_⟩
    rw [hc]
    simp only []
    nlinarith [h]
  · exact ⟨le_refl _, le_refl _⟩

lemma relaxPass_forall₂ (attrs : QueryAttrs) (w : MatchWeights) (level : ℕ) :
    ∀ (cs : List ScoredCandidate), (∀ c ∈ cs, ScoreInv c) →
      List.Forall₂ ScoreMono cs (relaxPass attrs w level cs) := by
  intro cs
  induction cs with
  | nil => intro _; exact List.Forall₂.nil
  | cons c cs ih =>
    intro h
    simp only [relaxPass, List.map_cons] at ih ⊢
    exact List.Forall₂.cons
      (relaxCandidate_mono _ _ (h c (List.mem_cons_self c cs)))
      (ih (fun x hx => h x (List.mem_cons_of_mem c hx)))

lemma relaxPass_scoreInv (attrs : QueryAttrs) (w : MatchWeights) (level : ℕ)
    {cs : List ScoredCandidate} (hcs : ∀ c ∈ cs, ScoreInv c) :
    ∀ c ∈ relaxPass attrs w level cs, ScoreInv c := by
  intro c hc
  simp only [relaxPass, List.mem_map] at hc
  obtain ⟨a, ha, rfl⟩ := hc
  exact relaxCandidate_scoreInv _ _ (hcs a ha)

lemma relaxLoop_mono (attrs : QueryAttrs) (w : MatchWeights) (k : ℕ) :
    ∀ (levels : List ℕ) (cs : List ScoredCandidate), (∀ c ∈ cs, ScoreInv c) →
      List.Forall₂ ScoreMono cs (relaxLoop attrs w k levels cs) := by
  intro levels
  induction levels with
  | nil => intro cs _; exact forall₂_scoreMono_self cs
  | cons level levels ih =>
    intro cs h
    simp only [relaxLoop]
    split
    · exact relaxPass_forall₂ attrs w level cs h
    · exact forall₂_scoreMono_trans (relaxPass_forall₂ attrs w level cs h)
        (ih _ (relaxPass_scoreInv attrs w level h))

lemma deepInitialScore_scoreInv (calibrate : ℚ → ℚ) (attrs : QueryAttrs) (w : MatchWeights)
    (candidates : List DHit) :
    ∀ c ∈ deepInitialScore calibrate attrs w candidates, ScoreInv c := by
  intro c hc
  simp only [deepInitialScore, List.mem_map] at hc
  obtain ⟨a, _, rfl⟩ := hc
  rfl

/-- C1: across the relaxation levels 1–3 of `deep_search`, every stored
candidate score is monotone: starting from the initially scored candidates
(where combined = 0.6·embedding + 0.4·meta by construction), the gated
relaxation block only ever raises `meta_score` (it overwrites only on
strict improvement) and, whenever it does, recomputes `combined_score` as
0.6·embedding + 0.4·meta, so both stored scores never decrease, for any
calibration function, query attributes, weights and candidate pool. -/
theorem deep_search_scores_monotone (calibrate : ℚ → ℚ) (query_attrs : QueryAttrs)
    (weights : MatchWeights) (top_k : ℕ) (candidates : List DHit) :
    List.Forall₂ ScoreMono
      (deepInitialScore calibrate query_attrs weights candidates)
      (deepRelaxation query_attrs weights top_k
        (deepInitialScore calibrate query_attrs weights candidates)) := by
  unfold deepRelaxation
  split
  · exact relaxLoop_mono query_attrs weights top_k [1, 2, 3] _
      (deepInitialScore_scoreInv calibrate query_attrs weights candidates)
  · exact forall₂_scoreMono_self _

/-! ### C2: recomputed meta score across relaxation levels -/

lemma lowerChar_idem (c : Char) : lowerChar (lowerChar c) = lowerChar c := by
  cases h : lowerPairs.find? (fun p => p.1 == c) with
  | none =>
    have h1 : lowerChar c = c := by unfold lowerChar; rw [h]
    rw [h1, h1]
  | some p =>
    have h1 : lowerChar c = p.2 := by unfold lowerChar; rw [h]
    have hmem : p ∈ lowerPairs := List.mem_of_find?_eq_some h
    have hnone : ∀ q ∈ lowerPairs, lowerPairs.find? (fun r => r.1 == q.2) = none := by decide
    have h2 : lowerChar p.2 = p.2 := by unfold lowerChar; rw [hnone p hmem]
    rw [h1, h2]

lemma isWs_lowerChar (c : Char) : isWs (lowerChar c) = isWs c := by
  cases h : lowerPairs.find? (fun p => p.1 == c) with
  | none =>
    have h1 : lowerChar c = c := by unfold lowerChar; rw [h]
    rw [h1]
  | some p =>
    have h1 : lowerChar c = p.2 := by unfold lowerChar; rw [h]
    have hmem : p ∈ lowerPairs := List.mem_of_find?_eq_some h
    have hpc : p.1 = c := by
      have := List.find?_some h
      simpa using this
    have hws : ∀ q ∈ lowerPairs, isWs q.1 = false ∧ isWs q.2 = false := by decide
    rw [h1, (hws p hmem).2, ← hpc, (hws p hmem).1]

lemma pyLower_idem (s : PyStr) : pyLower (pyLower s) = pyLower s := by
  unfold pyLower
  rw [List.map_map]
  exact List.map_congr_left (fun c _ => lowerChar_idem c)

lemma dropWhile_idem (p : Char → Bool) (l : PyStr) :
    (l.dropWhile p).dropWhile p = l.dropWhile p := by
  induction l with
  | nil => rfl
  | cons a l ih =>
    by_cases h : p a
    · simp [List.dropWhile_cons, h, ih]
    · simp [List.dropWhile_cons, h]

lemma dropTrailingWs_idem (s : PyStr) : dropTrailingWs (dropTrailingWs s) = dropTrailingWs s := by
  unfold dropTrailingWs
  rw [List.reverse_reverse, dropWhile_idem]

lemma pyLower_rev (s : PyStr) : pyLower s.reverse = (pyLower s).reverse := by
  unfold pyLower
  exact List.map_reverse lowerChar s

lemma pyLower_dropWhileWs (s : PyStr) :
    pyLower (s.dropWhile isWs) = (pyLower s).dropWhile isWs := by
  unfold pyLower
  rw [List.dropWhile_map]
  rw [show (isWs ∘ lowerChar) = isWs from funext (fun c => isWs_lowerChar c)]

lemma pyLower_dropTrailingWs (s : PyStr) :
    pyLower (dropTrailingWs s) = dropTrailingWs (pyLower s) := by
  unfold dropTrailingWs
  rw [pyLower_rev, pyLower_dropWhileWs, pyLower_rev]

lemma pyLower_pyStrip (s : PyStr) : pyLower (pyStrip s) = pyStrip (pyLower s) := by
  unfold pyStrip dropLeadingWs
  rw [pyLower_dropTrailingWs, pyLower_dropWhileWs]

lemma dropWhileWs_dropTrailingWs (l : PyStr) (h : l.dropWhile isWs = l) :
    (dropTrailingWs l).dropWhile isWs = dropTrailingWs l := by
  cases hd : dropTrailingWs l with
  | nil => rfl
  | cons a t =>
    have hsuf : l.reverse.dropWhile isWs <:+ l.reverse := List.dropWhile_suffix isWs
    have hpre : (l.reverse.dropWhile isWs).reverse <+: l := by
      have h2 := List.reverse_prefix.mpr hsuf
      rwa [List.reverse_reverse] at h2
    have hdpre : dropTrailingWs l <+: l := hpre
    rw [hd] at hdpre
    obtain ⟨r, hr⟩ := hdpre
    have hl : l = a :: (t ++ r) := by rw [← hr]; rfl
    have ha : isWs a = false := by
      by_contra hcon
      have ha' : isWs a = true := by
        cases hx : isWs a
        · exact absurd hx hcon
        · rfl
      rw [hl, List.dropWhile_cons_of_pos ha'] at h
      have hlen := (List.dropWhile_sublist (l := t ++ r) isWs).length_le
      rw [h] at hlen
      simp at hlen
    rw [List.dropWhile_cons_of_neg (by rw [ha]; exact Bool.false_ne_true)]

lemma pyStrip_idem (s : PyStr) : pyStrip (pyStrip s) = pyStrip s := by
  unfold pyStrip dropLeadingWs
  rw [dropWhileWs_dropTrailingWs (s.dropWhile isWs) (dropWhile_idem isWs s)]
  exact dropTrailingWs_idem _

lemma strip_lower_idem (s : PyStr) :
    pyStrip (pyLower (pyStrip (pyLower s))) = pyStrip (pyLower s) := by
  rw [pyLower_pyStrip, pyLower_idem, pyStrip_idem]

/-- Equation lemma exposing the body of `normalize_object`. -/
lemma normalize_object_eq (obj : PyStr) :
    normalize_object obj =
      match OBJECT_SYNONYMS.find? (fun p =>
          pyStrip (pyLower obj) == p.1 || p.2.contains (pyStrip (pyLower obj))) with
      | some p => p.1
      | none => pyStrip (pyLower obj) := rfl

lemma normalize_object_idem (s : PyStr) :
    normalize_object (normalize_object s) = normalize_object s := by
  rw [normalize_object_eq s]
  cases h : OBJECT_SYNONYMS.find? (fun p =>
      pyStrip (pyLower s) == p.1 || p.2.contains (pyStrip (pyLower s))) with
  | some p =>
    have hmem : p ∈ OBJECT_SYNONYMS := List.mem_of_find?_eq_some h
    have hcanon : ∀ q ∈ OBJECT_SYNONYMS, normalize_object q.1 = q.1 := by decide
    exact hcanon p hmem
  | none =>
    rw [normalize_object_eq]
    rw [strip_lower_idem, h]

lemma normalize_object_no_category (s : PyStr) :
    OBJECT_SYNONYMS.find? (fun q => q.2.contains (normalize_object s)) = none := by
  rw [normalize_object_eq s]
  cases h : OBJECT_SYNONYMS.find? (fun p =>
      pyStrip (pyLower s) == p.1 || p.2.contains (pyStrip (pyLower s))) with
  | some p =>
    have hmem : p ∈ OBJECT_SYNONYMS := List.mem_of_find?_eq_some h
    have hkeys : ∀ q ∈ OBJECT_SYNONYMS,
        OBJECT_SYNONYMS.find? (fun r => r.2.contains q.1) = none := by decide
    exact hkeys p hmem
  | none =>
    rw [List.find?_eq_none] at h ⊢
    intro x hx
    have hx2 := h x hx
    simp only [Bool.or_eq_true, not_or] at hx2
    intro hcon
    exact hx2.2 hcon

lemma relax_object_eq (s : PyStr) : relax_object s = normalize_object s := by
  simp only [relax_object]
  rw [normalize_object_no_category s]

lemma isEmpty_map {α β : Type} (f : α → β) (l : List α) : (l.map f).isEmpty = l.isEmpty := by
  cases l <;> rfl

lemma match_objects_map_relax (qs is : List PyStr) :
    match_objects (qs.map relax_object) is = match_objects qs is := by
  have h1 : qs.map relax_object = qs.map normalize_object :=
    List.map_congr_left (fun a _ => relax_object_eq a)
  rw [h1]
  unfold match_objects
  rw [isEmpty_map, List.map_map,
    show (normalize_object ∘ normalize_object) = normalize_object from
      funext (fun a => normalize_object_idem a)]

lemma apply_relaxation_zero (attrs : QueryAttrs) : apply_relaxation attrs 0 = attrs := by
  simp [apply_relaxation]

/-- C2 counterexample: recomputing the meta score from scratch is not
monotone across relaxation levels.  For a query with objects ["man"] and
scene "beach" against an image with objects ["cat"] and scene "beach",
level 1 scores 0.6/1.3 (the scene matches) while level 2 clears the
matching scene and scores 0, a strict decrease from level 1 to level 2. -/
theorem compute_match_score_relaxation_can_decrease :
    compute_match_score (apply_relaxation c2_attrs 2) c2_meta (some (get_query_importance c2_attrs)) <
      compute_match_score (apply_relaxation c2_attrs 1) c2_meta (some (get_query_importance c2_attrs)) := by
  have h1 : apply_relaxation c2_attrs 1 =
      { objects := ["person".data]
        action := none
        time := none
        scene := some "beach".data
        weather := none
        emotion := none
        raw_query := [] } := by decide
  have h2 : apply_relaxation c2_attrs 2 =
      { objects := ["person".data]
        action := none
        time := none
        scene := none
        weather := none
        emotion := none
        raw_query := [] } := by decide
  have hmo : match_objects ["person".data] ["cat".data] = 0 := by decide
  have hsc : match_exact_or_zero "beach".data (some "beach".data) = 1 := by decide
  rw [h1, h2]
  norm_num [compute_match_score, c2_meta, get_query_importance, pyTruthy, hmo, hsc]

/-- C2 amended: recomputing the meta score from scratch is unchanged from
relaxation level 0 to level 1 (level-1 relaxation replaces each object by
its normalised category form, and `match_objects` normalises its inputs
anyway), for every query attribute set, image metadata and weights; from
level 1 to 2 and from 2 to 3 the recomputed score can strictly decrease
(see the counterexample), which is why `deep_search` only overwrites the
stored score on strict improvement. -/
theorem compute_match_score_relax_one_eq (attrs : QueryAttrs) (md : ImageMeta)
    (w : Option MatchWeights) :
    compute_match_score (apply_relaxation attrs 1) md w =
      compute_match_score (apply_relaxation attrs 0) md w := by
  rw [apply_relaxation_zero]
  have h1 : apply_relaxation attrs 1 =
      if attrs.objects.isEmpty then attrs
      else { attrs with objects := attrs.objects.map relax_object } := by
    cases hx : attrs.objects.isEmpty <;> simp [apply_relaxation, hx]
  rw [h1]
  by_cases h : attrs.objects.isEmpty
  · rw [if_pos h]
  · rw [if_neg h]
    unfold compute_match_score
    simp only [match_objects_map_relax, isEmpty_map]

/-! ### C8: guarantees of the diversity re-ranking pass -/

lemma dot_comm (a b : List ℚ) : dot a b = dot b a := by
  induction a generalizing b with
  | nil => cases b <;> simp [dot]
  | cons x xs ih =>
    cases b with
    | nil => simp [dot]
    | cons y ys =>
      show x * y + dot xs ys = y * x + dot ys xs
      rw [mul_comm x y, ih ys]

lemma diversityLoop_spec (g : ℕ → Option (List ℚ)) (k : ℕ) :
    ∀ (items acc : List RerankItem) (used : List (List ℚ)),
      List.Pairwise DiversePair used →
      List.Forall₂ (EmbeddedAs g) acc used →
      List.Pairwise DiversePair (diversityLoop g k items acc used).2 ∧
      List.Forall₂ (EmbeddedAs g) (diversityLoop g k items acc used).1
        (diversityLoop g k items acc used).2 ∧
      ∃ t, (diversityLoop g k items acc used).1 = acc ++ t ∧ t.Sublist items ∧
        (acc.length < k → (diversityLoop g k items acc used).1.length ≤ k) := by
  intro items
  induction items with
  | nil =>
    intro acc used hpw hf2
    simp only [diversityLoop]
    exact ⟨hpw, hf2, [], (List.append_nil acc).symm, List.nil_sublist _,
      fun h => le_of_lt h⟩
  | cons item rest ih =>
    intro acc used hpw hf2
    simp only [diversityLoop]
    cases hg : g item.image_id with
    | none =>
      obtain ⟨h1, h2, t, ht, hsub, hlen⟩ := ih acc used hpw hf2
      exact ⟨h1, h2, t, ht, hsub.cons item, hlen⟩
    | some e =>
      dsimp only
      cases hall : isDiverseCheck used e with
      | false =>
        simp only [Bool.false_eq_true, if_false]
        by_cases hk : k ≤ acc.length
        · rw [if_pos hk]
          exact ⟨hpw, hf2, [], (List.append_nil acc).symm, List.nil_sublist _,
            fun h => absurd hk (not_le.mpr h)⟩
        · rw [if_neg hk]
          obtain ⟨h1, h2, t, ht, hsub, hlen⟩ := ih acc used hpw hf2
          exact ⟨h1, h2, t, ht, hsub.cons item, hlen⟩
      | true =>
        have hde : ∀ u ∈ used, dot e u ≤ 0.95 := by
          intro u hu
          unfold isDiverseCheck at hall
          exact of_decide_eq_true ((List.all_eq_true.mp hall) u hu)
        have hpw' : List.Pairwise DiversePair (used ++ [e]) := by
          rw [List.pairwise_append]
          refine ⟨hpw, List.pairwise_singleton _ _, ?_⟩
          intro u hu v hv
          rw [List.mem_singleton] at hv
          subst hv
          exact ⟨by rw [dot_comm]; exact hde u hu, hde u hu⟩
        have hf2' : List.Forall₂ (EmbeddedAs g) (acc ++ [item]) (used ++ [e]) :=
          List.rel_append hf2 (List.Forall₂.cons hg List.Forall₂.nil)
        simp only [eq_self_iff_true, if_true]
        by_cases hk : k ≤ (acc ++ [item]).length
        · rw [if_pos hk]
          refine ⟨hpw', hf2', [item], rfl, (List.nil_sublist rest).cons₂ item, ?_⟩
          intro h
          simp only [List.length_append, List.length_singleton]
          omega
        · rw [if_neg hk]
          obtain ⟨h1, h2, t, ht, hsub, hlen⟩ := ih (acc ++ [item]) (used ++ [e]) hpw' hf2'
          refine ⟨h1, h2, item :: t, ?_, hsub.cons₂ item, ?_⟩
          · rw [ht, List.append_assoc]
            rfl
          · intro _
            exact hlen (not_le.mp hk)

/-- C8: the diversity re-ranking pass accepts a pairwise-diverse set — no
two accepted embeddings have similarity above 0.95, in either order — the
accepted items are a subsequence of the incoming score-sorted list (the
order is never changed), and, for a positive target count, iteration stops
with at most `top_k` accepted results. -/
theorem diversity_rerank_spec (get_embedding : ℕ → Option (List ℚ)) (top_k : ℕ)
    (reranked_results : List RerankItem) :
    List.Pairwise DiversePair (diversityLoop get_embedding top_k reranked_results [] []).2 ∧
    List.Forall₂ (EmbeddedAs get_embedding)
      (diversity_rerank get_embedding top_k reranked_results)
      (diversityLoop get_embedding top_k reranked_results [] []).2 ∧
    (diversity_rerank get_embedding top_k reranked_results).Sublist reranked_results ∧
    (1 ≤ top_k → (diversity_rerank get_embedding top_k reranked_results).length ≤ top_k) := by
  obtain ⟨h1, h2, t, ht, hsub, hlen⟩ :=
    diversityLoop_spec get_embedding top_k reranked_results [] []
      List.Pairwise.nil List.Forall₂.nil
  refine ⟨h1, h2, ?_, ?_⟩
  · unfold diversity_rerank
    rw [ht]
    simpa using hsub
  · intro hk
    exact hlen hk

/-- Witness for C8 at a concrete positive target count. -/
theorem diversity_rerank_spec_witness :
    (1:ℕ) ≤ 5 ∧ (diversity_rerank c8_embed 5 c8_items).length ≤ 5 :=
  ⟨by decide, (diversity_rerank_spec c8_embed 5 c8_items).2.2.2 (by decide)⟩

/-! ### C7: cluster merge -/

lemma reassign_nil (primary : ℕ) (f : FaceRow) : reassign primary [] f = f := by
  unfold reassign
  cases f.cluster_id with
  | none => rfl
  | some c => simp

lemma reassign_step (primary cid : ℕ) (L : List ℕ) (f : FaceRow) :
    reassign primary L
      (if f.cluster_id == some cid then { f with cluster_id := some primary } else f) =
    reassign primary (cid :: L) f := by
  cases hf : f.cluster_id with
  | none =>
    rw [show ((none : Option ℕ) == some cid) = false from rfl]
    simp only [Bool.false_eq_true, if_false]
    unfold reassign
    rw [hf]
  | some c =>
    by_cases hc : c = cid
    · subst hc
      simp only [beq_self_eq_true, if_true]
      unfold reassign
      rw [hf]
      simp only [List.mem_cons, true_or, if_true]
      by_cases hp : primary ∈ L <;> simp [hp]
    · rw [show ((some c : Option ℕ) == some cid) = false from by simp [hc]]
      simp only [Bool.false_eq_true, if_false]
      unfold reassign
      rw [hf]
      simp only [List.mem_cons]
      by_cases h2 : c ∈ L <;> simp [h2, hc]

lemma reassign_foldl (primary : ℕ) :
    ∀ (secondary : List ℕ) (faces : List FaceRow),
      secondary.foldl (fun fs cid => fs.map (fun f =>
          if f.cluster_id == some cid then { f with cluster_id := some primary } else f)) faces =
        faces.map (reassign primary secondary) := by
  intro secondary
  induction secondary with
  | nil =>
    intro faces
    simp only [List.foldl_nil]
    rw [show faces.map (reassign primary []) = faces.map id from
      List.map_congr_left (fun f _ => reassign_nil primary f), List.map_id]
  | cons cid L ih =>
    intro faces
    simp only [List.foldl_cons]
    rw [ih, List.map_map]
    exact List.map_congr_left (fun f _ => reassign_step primary cid L f)

/-- C7: `merge_clusters` with fewer than two cluster ids fails with the
invalid-argument error before any mutation; with at least two ids it
reassigns every face of the secondary clusters to the primary, deletes the
secondary cluster rows, renames the primary and sets its face count to the
number of faces now assigned to it (and, when the primary is distinct from
the secondaries, its row survives the deletion whenever it existed). -/
theorem merge_clusters_spec (db : FaceDB) (cluster_ids : List ℕ) (new_name : PyStr) :
    (cluster_ids.length < 2 → merge_clusters db cluster_ids new_name = Except.error mergeErrMsg) ∧
    (∀ p s rest, cluster_ids = p :: s :: rest →
      ∃ db' stats, merge_clusters db cluster_ids new_name = Except.ok (db', stats) ∧
        db'.faces = db.faces.map (reassign p (s :: rest)) ∧
        (∀ c ∈ db'.face_clusters, c.id ∉ s :: rest) ∧
        (∀ c ∈ db'.face_clusters, c.id = p → c.name = new_name ∧
          c.face_count = (db'.faces.filter (fun f => f.cluster_id == some p)).length) ∧
        (p ∉ s :: rest → ∀ c ∈ db.face_clusters, c.id = p →
          ∃ c' ∈ db'.face_clusters, c'.id = p) ∧
        stats = { merged_cluster_id := p, clusters_merged := (s :: rest).length + 1 }) := by
  constructor
  · intro hlen
    match cluster_ids, hlen with
    | [], _ => rfl
    | [x], _ => rfl
    | x :: y :: r, hlen => simp at hlen; omega
  · intro p s rest hid
    subst hid
    refine ⟨_, _, rfl, ?_, ?_, ?_, ?_, rfl⟩
    · exact reassign_foldl p (s :: rest) db.faces
    · intro c hc
      simp only [List.mem_map] at hc
      obtain ⟨c0, hc0, hmapped⟩ := hc
      rw [List.mem_filter] at hc0
      have hid0 : c.id = c0.id := by
        by_cases hb : (c0.id == p) = true
        · rw [← hmapped, if_pos hb]
        · rw [← hmapped, if_neg hb]
      rw [hid0]
      have := hc0.2
      simp only [Bool.not_eq_true'] at this
      intro hcon
      rw [show ((s :: rest).contains c0.id) = true by
        exact List.elem_eq_true_of_mem hcon] at this
      cases this
    · intro c hc hcp
      simp only [List.mem_map] at hc
      obtain ⟨c0, hc0, hmapped⟩ := hc
      by_cases hb : (c0.id == p) = true
      · rw [← hmapped, if_pos hb]
        exact ⟨rfl, rfl⟩
      · exfalso
        rw [← hmapped, if_neg hb] at hcp
        exact hb (by simp [hcp])
    · intro hp c hc hcp
      have hfilter : c ∈ db.face_clusters.filter (fun c => !(s :: rest).contains c.id) := by
        rw [List.mem_filter]
        refine ⟨hc, ?_⟩
        simp only [Bool.not_eq_true']
        rw [hcp]
        cases hx : (s :: rest).contains p
        · rfl
        · exact absurd (by simpa using hx) hp
      refine ⟨_, List.mem_map_of_mem _ hfilter, ?_⟩
      dsimp only
      simp [hcp]

/-- Witness for C7: merging the 3-face cluster 1 with the 2-face cluster 2
yields face count 5 on cluster 1 and removes cluster 2; a single-id merge
is rejected with the invalid-argument error. -/
theorem merge_clusters_spec_witness :
    (([1] : List ℕ).length < 2 ∧
      merge_clusters c7_db [1] "Alice".data = Except.error mergeErrMsg) ∧
    ∃ db' stats, merge_clusters c7_db [1, 2] "Alice".data = Except.ok (db', stats) ∧
      (∀ c ∈ db'.face_clusters, c.id ≠ 2) ∧
      (∀ c ∈ db'.face_clusters, c.id = 1 → c.face_count = 5) ∧
      (∃ c' ∈ db'.face_clusters, c'.id = 1) := by
  refine ⟨⟨by decide, (merge_clusters_spec c7_db [1] "Alice".data).1 (by decide)⟩, ?_⟩
  obtain ⟨db', stats, heq, hfaces, hdel, hcount, hsurv, hstats⟩ :=
    (merge_clusters_spec c7_db [1, 2] "Alice".data).2 1 2 [] rfl
  refine ⟨db', stats, heq, ?_, ?_, ?_⟩
  · intro c hc
    have := hdel c hc
    simp only [List.mem_cons, List.not_mem_nil] at this
    tauto
  · intro c hc h1
    have hlen : (db'.faces.filter (fun f => f.cluster_id == some 1)).length = 5 := by
      rw [hfaces]
      decide
    rw [(hcount c hc h1).2, hlen]
  · exact hsurv (by decide)
      { id := 1, name := "Person 1".data, representative_face_id := 1, face_count := 3 }
      (by decide) rfl

/-! ### C9: the ordered expansion term list of normal search -/

lemma dropWhile_eq_self_of_no_ws (l : PyStr) (h : ∀ c ∈ l, isWs c = false) :
    l.dropWhile isWs = l := by
  cases l with
  | nil => rfl
  | cons a t =>
    rw [List.dropWhile_cons_of_neg]
    rw [h a (List.mem_cons_self a t)]
    exact Bool.false_ne_true

lemma pyStrip_of_no_ws (w : PyStr) (h : ∀ c ∈ w, isWs c = false) : pyStrip w = w := by
  unfold pyStrip dropLeadingWs dropTrailingWs
  rw [dropWhile_eq_self_of_no_ws w h,
    dropWhile_eq_self_of_no_ws w.reverse (fun c hc => h c (List.mem_reverse.mp hc)),
    List.reverse_reverse]

lemma pyLower_of_fixed (w : PyStr) (h : ∀ c ∈ w, lowerChar c = c) : pyLower w = w := by
  unfold pyLower
  rw [List.map_congr_left h]
  simp

lemma mem_of_mem_pyStrip {c : Char} {l : PyStr} (h : c ∈ pyStrip l) : c ∈ l := by
  unfold pyStrip dropLeadingWs dropTrailingWs at h
  rw [List.mem_reverse] at h
  have h2 := (List.dropWhile_sublist isWs).subset h
  rw [List.mem_reverse] at h2
  exact (List.dropWhile_sublist isWs).subset h2

lemma lowered_chars (q : PyStr) : ∀ c ∈ pyStrip (pyLower q), lowerChar c = c := by
  intro c hc
  have h2 : c ∈ pyLower q := mem_of_mem_pyStrip hc
  unfold pyLower at h2
  rw [List.mem_map] at h2
  obtain ⟨c0, _, rfl⟩ := h2
  exact lowerChar_idem c0

lemma splitWsAux_tokens : ∀ (s acc : PyStr), (∀ c ∈ acc, isWs c = false) →
    ∀ w ∈ splitWsAux s acc, w ≠ [] ∧ ∀ c ∈ w, isWs c = false ∧ (c ∈ s ∨ c ∈ acc) := by
  intro s
  induction s with
  | nil =>
    intro acc hacc w hw
    unfold splitWsAux at hw
    by_cases he : acc.isEmpty
    · rw [if_pos he] at hw
      exact absurd hw (List.not_mem_nil w)
    · rw [if_neg he] at hw
      rw [List.mem_singleton] at hw
      subst hw
      refine ⟨?_, ?_⟩
      · intro hcon
        rw [List.reverse_eq_nil_iff] at hcon
        subst hcon
        exact he rfl
      · intro c hc
        rw [List.mem_reverse] at hc
        exact ⟨hacc c hc, Or.inr hc⟩
  | cons a rest ih =>
    intro acc hacc w hw
    unfold splitWsAux at hw
    by_cases ha : isWs a = true
    · rw [if_pos ha] at hw
      by_cases he : acc.isEmpty
      · rw [if_pos he] at hw
        obtain ⟨hne, hchars⟩ := ih [] (by intro c hc; exact absurd hc (List.not_mem_nil c)) w hw
        refine ⟨hne, fun c hc => ?_⟩
        obtain ⟨h1, h2⟩ := hchars c hc
        cases h2 with
        | inl h3 => exact ⟨h1, Or.inl (List.mem_cons_of_mem a h3)⟩
        | inr h3 => exact absurd h3 (List.not_mem_nil c)
      · rw [if_neg he] at hw
        rw [List.mem_cons] at hw
        cases hw with
        | inl hw =>
          subst hw
          refine ⟨?_, ?_⟩
          · intro hcon
            rw [List.reverse_eq_nil_iff] at hcon
            subst hcon
            exact he rfl
          · intro c hc
            rw [List.mem_reverse] at hc
            exact ⟨hacc c hc, Or.inr hc⟩
        | inr hw =>
          obtain ⟨hne, hchars⟩ := ih [] (by intro c hc; exact absurd hc (List.not_mem_nil c)) w hw
          refine ⟨hne, fun c hc => ?_⟩
          obtain ⟨h1, h2⟩ := hchars c hc
          cases h2 with
          | inl h3 => exact ⟨h1, Or.inl (List.mem_cons_of_mem a h3)⟩
          | inr h3 => exact absurd h3 (List.not_mem_nil c)
    · rw [if_neg ha] at hw
      have hacc' : ∀ c ∈ a :: acc, isWs c = false := by
        intro c hc
        rw [List.mem_cons] at hc
        cases hc with
        | inl h3 => subst h3; cases hx : isWs c; rfl; exact absurd hx ha
        | inr h3 => exact hacc c h3
      obtain ⟨hne, hchars⟩ := ih (a :: acc) hacc' w hw
      refine ⟨hne, fun c hc => ?_⟩
      obtain ⟨h1, h2⟩ := hchars c hc
      cases h2 with
      | inl h3 => exact ⟨h1, Or.inl (List.mem_cons_of_mem a h3)⟩
      | inr h3 =>
        rw [List.mem_cons] at h3
        cases h3 with
        | inl h4 => exact ⟨h1, Or.inl (by rw [h4]; exact List.mem_cons_self a rest)⟩
        | inr h4 => exact ⟨h1, Or.inr h4⟩

lemma splitWs_tokens (l : PyStr) :
    ∀ w ∈ splitWs l, w ≠ [] ∧ ∀ c ∈ w, isWs c = false ∧ c ∈ l := by
  intro w hw
  obtain ⟨hne, hchars⟩ := splitWsAux_tokens l []
    (by intro c hc; exact absurd hc (List.not_mem_nil c)) w hw
  refine ⟨hne, fun c hc => ?_⟩
  obtain ⟨h1, h2⟩ := hchars c hc
  cases h2 with
  | inl h3 => exact ⟨h1, h3⟩
  | inr h3 => exact absurd h3 (List.not_mem_nil c)

lemma word_fixed (query : PyStr) (w : PyStr)
    (hw : w ∈ splitWs (pyStrip (pyLower query))) :
    pyLower (pyStrip w) = w ∧ w.isEmpty = false := by
  obtain ⟨hne, hchars⟩ := splitWs_tokens (pyStrip (pyLower query)) w hw
  have hstrip : pyStrip w = w :=
    pyStrip_of_no_ws w (fun c hc => (hchars c hc).1)
  have hlow : pyLower w = w :=
    pyLower_of_fixed w (fun c hc => lowered_chars query c ((hchars c hc).2))
  refine ⟨by rw [hstrip, hlow], ?_⟩
  cases hx : w.isEmpty
  · rfl
  · exact absurd (by simpa using hx) hne

lemma inner_fold_nodup (ts : List PyStr) : ∀ (acc : List PyStr), acc.Nodup →
    (ts.foldl (fun ordered term =>
      let t := pyLower (pyStrip term)
      if t.isEmpty || ordered.contains t then ordered else ordered ++ [t]) acc).Nodup := by
  induction ts with
  | nil => intro acc h; exact h
  | cons term ts ih =>
    intro acc h
    rw [List.foldl_cons]
    apply ih
    dsimp only
    by_cases hc : ((pyLower (pyStrip term)).isEmpty ||
        acc.contains (pyLower (pyStrip term))) = true
    · rw [if_pos hc]
      exact h
    · rw [if_neg hc]
      have hnm : pyLower (pyStrip term) ∉ acc := by
        intro hm
        simp only [Bool.or_eq_true, not_or] at hc
        exact hc.2 (by simpa using hm)
      refine List.Nodup.append h (List.nodup_singleton _) ?_
      intro x hx hx2
      rw [List.mem_singleton] at hx2
      subst hx2
      exact hnm hx

lemma expand_query_multi_word_nodup (query : PyStr) :
    (expand_query_multi_word query).Nodup := by
  unfold expand_query_multi_word
  have main : ∀ (ws : List PyStr) (acc : List PyStr), acc.Nodup →
      (ws.foldl (fun ordered word =>
        ((lookupA QUERY_EXPANSIONS_LOWER word).getD [word]).foldl (fun ordered term =>
          let t := pyLower (pyStrip term)
          if t.isEmpty || ordered.contains t then ordered else ordered ++ [t]) ordered) acc).Nodup := by
    intro ws
    induction ws with
    | nil => intro acc h; exact h
    | cons word ws ih =>
      intro acc h
      rw [List.foldl_cons]
      exact ih _ (inner_fold_nodup _ acc h)
  exact main _ [] List.nodup_nil

lemma foldl_congr_mem {α β : Type} (l : List β) (f g : α → β → α) (init : α)
    (h : ∀ (acc : α), ∀ b ∈ l, f acc b = g acc b) : l.foldl f init = l.foldl g init := by
  induction l generalizing init with
  | nil => rfl
  | cons b l ih =>
    rw [List.foldl_cons, List.foldl_cons, h init b (List.mem_cons_self b l)]
    exact ih _ (fun acc b2 hb2 => h acc b2 (List.mem_cons_of_mem b hb2))

lemma expand_query_multi_word_no_match (query : PyStr)
    (h : ∀ w ∈ splitWs (pyStrip (pyLower query)), lookupA QUERY_EXPANSIONS_LOWER w = none) :
    expand_query_multi_word query = dedupFirst (splitWs (pyStrip (pyLower query))) := by
  unfold expand_query_multi_word dedupFirst
  apply foldl_congr_mem
  intro acc w hw
  rw [h w hw]
  simp only [Option.getD, List.foldl_cons, List.foldl_nil]
  obtain ⟨hfix, hne⟩ := word_fixed query w hw
  rw [hfix, hne]
  rw [Bool.false_or]

/-- C9 counterexample: for the two-word query "purple elephant", no word
matches any synonym group, yet the ordered term list is not the verbatim
query alone (it is the verbatim query followed by the query's words). -/
theorem ordered_terms_no_match_not_singleton :
    (∀ w ∈ splitWs (pyStrip (pyLower "purple elephant".data)),
        lookupA QUERY_EXPANSIONS_LOWER w = none) ∧
    ordered_terms "purple elephant".data ≠ [normalized_query "purple elephant".data] := by
  constructor <;> decide

/-- C9 amended: the term list of `normal_search` is de-duplicated with the
verbatim (stripped, lower-cased) query as its first element; when no word
of the query matches any synonym group, the rest of the list is the query's
distinct words (those differing from the whole query) in order — so only
for a single-word unmatched query is the list the verbatim query alone. -/
theorem ordered_terms_spec (query : PyStr) :
    (ordered_terms query).head? = some (normalized_query query) ∧
    (ordered_terms query).Nodup ∧
    ((∀ w ∈ splitWs (pyStrip (pyLower query)), lookupA QUERY_EXPANSIONS_LOWER w = none) →
      ordered_terms query = normalized_query query ::
        (dedupFirst (splitWs (pyStrip (pyLower query)))).filter
          (fun t => t != normalized_query query)) := by
  refine ⟨rfl, ?_, ?_⟩
  · unfold ordered_terms
    rw [List.nodup_cons]
    constructor
    · intro hm
      rw [List.mem_filter] at hm
      have := hm.2
      simp at this
    · exact (expand_query_multi_word_nodup query).filter _
  · intro h
    unfold ordered_terms
    rw [expand_query_multi_word_no_match query h]

/-- Witness for C9 at the concrete no-match query "purple elephant". -/
theorem ordered_terms_spec_witness :
    (∀ w ∈ splitWs (pyStrip (pyLower "purple elephant".data)),
        lookupA QUERY_EXPANSIONS_LOWER w = none) ∧
    ordered_terms "purple elephant".data = normalized_query "purple elephant".data ::
      (dedupFirst (splitWs (pyStrip (pyLower "purple elephant".data)))).filter
        (fun t => t != normalized_query "purple elephant".data) :=
  ⟨by decide, (ordered_terms_spec "purple elephant".data).2.2 (by decide)⟩

/-! ### Sorting lemmas shared by the ranking theorems -/

lemma insertDesc_perm {α : Type} (key : α → ℚ) (x : α) (l : List α) :
    List.Perm (insertDesc key x l) (x :: l) := by
  induction l with
  | nil => exact List.Perm.refl _
  | cons y ys ih =>
    unfold insertDesc
    by_cases h : key y < key x
    · rw [if_pos h]
    · rw [if_neg h]
      exact (ih.cons y).trans (List.Perm.swap x y ys)

lemma sortDesc_perm_aux {α : Type} (key : α → ℚ) :
    ∀ (l acc : List α),
      List.Perm (l.foldl (fun acc x => insertDesc key x acc) acc) (l ++ acc) := by
  intro l
  induction l with
  | nil => intro acc; exact List.Perm.refl _
  | cons x xs ih =>
    intro acc
    rw [List.foldl_cons]
    refine (ih (insertDesc key x acc)).trans ?_
    refine (List.Perm.append_left xs (insertDesc_perm key x acc)).trans ?_
    exact List.perm_middle

lemma sortDesc_perm {α : Type} (key : α → ℚ) (l : List α) :
    List.Perm (sortDesc key l) l := by
  have h := sortDesc_perm_aux key l []
  rw [List.append_nil] at h
  exact h

lemma insertDesc_sorted {α : Type} (key : α → ℚ) (x : α) :
    ∀ (l : List α), l.Pairwise (fun a b => key b ≤ key a) →
      (insertDesc key x l).Pairwise (fun a b => key b ≤ key a) := by
  intro l
  induction l with
  | nil => intro _; exact List.pairwise_singleton _ _
  | cons y ys ih =>
    intro h
    unfold insertDesc
    by_cases hxy : key y < key x
    · rw [if_pos hxy]
      refine List.Pairwise.cons ?_ h
      intro z hz
      rw [List.mem_cons] at hz
      cases hz with
      | inl hz => subst hz; exact le_of_lt hxy
      | inr hz => exact le_trans (List.rel_of_pairwise_cons h hz) (le_of_lt hxy)
    · rw [if_neg hxy]
      refine List.Pairwise.cons ?_ (ih (List.Pairwise.of_cons h))
      intro z hz
      rw [(insertDesc_perm key x ys).mem_iff, List.mem_cons] at hz
      cases hz with
      | inl hz => subst hz; exact not_lt.mp hxy
      | inr hz => exact List.rel_of_pairwise_cons h hz

lemma sortDesc_sorted_aux {α : Type} (key : α → ℚ) :
    ∀ (l acc : List α), acc.Pairwise (fun a b => key b ≤ key a) →
      (l.foldl (fun acc x => insertDesc key x acc) acc).Pairwise (fun a b => key b ≤ key a) := by
  intro l
  induction l with
  | nil => intro acc h; exact h
  | cons x xs ih =>
    intro acc h
    rw [List.foldl_cons]
    exact ih _ (insertDesc_sorted key x acc h)

lemma sortDesc_sorted {α : Type} (key : α → ℚ) (l : List α) :
    (sortDesc key l).Pairwise (fun a b => key b ≤ key a) :=
  sortDesc_sorted_aux key l [] List.Pairwise.nil

lemma insertDesc_stable {α : Type} (key : α → ℚ) (idx : α → ℕ) (x : α) :
    ∀ (l : List α),
      l.Pairwise (fun a b => key b < key a ∨ (key a = key b ∧ idx a < idx b)) →
      (∀ a ∈ l, idx a < idx x) →
      (insertDesc key x l).Pairwise
        (fun a b => key b < key a ∨ (key a = key b ∧ idx a < idx b)) := by
  intro l
  induction l with
  | nil => intro _ _; exact List.pairwise_singleton _ _
  | cons y ys ih =>
    intro h hidx
    unfold insertDesc
    by_cases hxy : key y < key x
    · rw [if_pos hxy]
      refine List.Pairwise.cons ?_ h
      intro z hz
      rw [List.mem_cons] at hz
      cases hz with
      | inl hz => subst hz; exact Or.inl hxy
      | inr hz =>
        have h2 := List.rel_of_pairwise_cons h hz
        left
        cases h2 with
        | inl h3 => exact lt_trans h3 hxy
        | inr h3 => exact h3.1 ▸ hxy
    · rw [if_neg hxy]
      refine List.Pairwise.cons ?_
        (ih (List.Pairwise.of_cons h) (fun a ha => hidx a (List.mem_cons_of_mem y ha)))
      intro z hz
      rw [(insertDesc_perm key x ys).mem_iff, List.mem_cons] at hz
      cases hz with
      | inl hz =>
        subst hz
        rcases lt_or_eq_of_le (not_lt.mp hxy) with h3 | h3
        · exact Or.inl h3
        · exact Or.inr ⟨h3.symm, hidx y (List.mem_cons_self y ys)⟩
      | inr hz => exact List.rel_of_pairwise_cons h hz

lemma sortDesc_stable_aux {α : Type} (key : α → ℚ) (idx : α → ℕ) :
    ∀ (l acc : List α),
      acc.Pairwise (fun a b => key b < key a ∨ (key a = key b ∧ idx a < idx b)) →
      (∀ a ∈ acc, ∀ b ∈ l, idx a < idx b) →
      l.Pairwise (fun a b => idx a < idx b) →
      (l.foldl (fun acc x => insertDesc key x acc) acc).Pairwise
        (fun a b => key b < key a ∨ (key a = key b ∧ idx a < idx b)) := by
  intro l
  induction l with
  | nil => intro acc h _ _; exact h
  | cons x xs ih =>
    intro acc hacc hcross hl
    rw [List.foldl_cons]
    apply ih
    · exact insertDesc_stable key idx x acc hacc
        (fun a ha => hcross a ha x (List.mem_cons_self x xs))
    · intro a ha b hb
      rw [(insertDesc_perm key x acc).mem_iff, List.mem_cons] at ha
      cases ha with
      | inl ha => subst ha; exact List.rel_of_pairwise_cons hl hb
      | inr ha => exact hcross a ha b (List.mem_cons_of_mem x hb)
    · exact List.Pairwise.of_cons hl

lemma sortDesc_stable {α : Type} (key : α → ℚ) (idx : α → ℕ) (l : List α)
    (hl : l.Pairwise (fun a b => idx a < idx b)) :
    (sortDesc key l).Pairwise (fun a b => key b < key a ∨ (key a = key b ∧ idx a < idx b)) :=
  sortDesc_stable_aux key idx l [] List.Pairwise.nil
    (fun a ha => absurd ha (List.not_mem_nil a)) hl

/-! ### Association-list lemmas (Python dict model) -/

lemma find?_pair_cons {κ β : Type} [BEq κ] (q : κ × β) (m : List (κ × β)) (k : κ) :
    (q :: m).find? (fun p => p.1 == k) =
      if (q.1 == k) = true then some q else m.find? (fun p => p.1 == k) := by
  by_cases hq : (q.1 == k) = true
  · rw [if_pos hq]
    apply List.find?_cons_of_pos
    exact hq
  · rw [if_neg hq]
    apply List.find?_cons_of_neg
    exact hq

lemma lookupA_cons {κ β : Type} [BEq κ] (q : κ × β) (m : List (κ × β)) (k : κ) :
    lookupA (q :: m) k = if (q.1 == k) = true then some q.2 else lookupA m k := by
  unfold lookupA
  rw [find?_pair_cons, apply_ite (Option.map (fun (p : κ × β) => p.2))]
  split <;> rfl

lemma find?_beq_map_set {κ β : Type} [BEq κ] [LawfulBEq κ] (k : κ) (v : β) :
    ∀ (m : List (κ × β)), m.any (fun p => p.1 == k) = true →
      (m.map (fun p => if p.1 == k then (k, v) else p)).find? (fun p => p.1 == k) =
        some (k, v) := by
  intro m
  induction m with
  | nil => intro h; simp at h
  | cons q qs ih =>
    intro h
    rw [List.map_cons]
    by_cases hq : (q.1 == k) = true
    · rw [if_pos hq, find?_pair_cons]
      rw [if_pos (by simp : ((((k, v) : κ × β)).1 == k) = true)]
    · rw [if_neg hq, find?_pair_cons, if_neg hq]
      apply ih
      rw [List.any_cons] at h
      simp only [Bool.or_eq_true] at h
      cases h with
      | inl h2 => exact absurd h2 hq
      | inr h2 => exact h2

lemma find?_beq_map_set_ne {κ β : Type} [BEq κ] [LawfulBEq κ] (k k2 : κ) (v : β)
    (hne : k2 ≠ k) :
    ∀ (m : List (κ × β)),
      (m.map (fun p => if p.1 == k then (k, v) else p)).find? (fun p => p.1 == k2) =
        m.find? (fun p => p.1 == k2) := by
  intro m
  induction m with
  | nil => rfl
  | cons q qs ih =>
    rw [List.map_cons]
    by_cases hq : (q.1 == k) = true
    · have hqk : q.1 = k := by simpa using hq
      have hk2 : ((((k, v) : κ × β)).1 == k2) = false := by
        simp only [beq_eq_false_iff_ne]
        exact Ne.symm hne
      have hq2 : (q.1 == k2) = false := by
        rw [hqk]
        simp only [beq_eq_false_iff_ne]
        exact Ne.symm hne
      rw [if_pos hq, find?_pair_cons, find?_pair_cons, hk2, hq2]
      simp only [Bool.false_eq_true, if_false]
      exact ih
    · rw [if_neg hq, find?_pair_cons, find?_pair_cons]
      by_cases hq2 : (q.1 == k2) = true
      · rw [if_pos hq2, if_pos hq2]
      · rw [if_neg hq2, if_neg hq2]
        exact ih

lemma lookupA_setA_self {κ β : Type} [BEq κ] [LawfulBEq κ] (m : List (κ × β)) (k : κ) (v : β) :
    lookupA (setA m k v) k = some v := by
  unfold setA
  by_cases hany : m.any (fun p => p.1 == k) = true
  · rw [if_pos hany]
    unfold lookupA
    rw [find?_beq_map_set k v m hany]
    rfl
  · rw [if_neg hany]
    unfold lookupA
    rw [List.find?_append]
    have hanyf : m.any (fun p => p.1 == k) = false := by
      cases hx : m.any (fun p => p.1 == k)
      · rfl
      · exact absurd hx hany
    rw [List.find?_eq_none.mpr (List.any_eq_false.mp hanyf)]
    rw [find?_pair_cons]
    rw [if_pos (by simp : ((((k, v) : κ × β)).1 == k) = true)]
    rfl

lemma lookupA_setA_ne {κ β : Type} [BEq κ] [LawfulBEq κ] (m : List (κ × β)) (k k2 : κ)
    (v : β) (hne : k2 ≠ k) : lookupA (setA m k v) k2 = lookupA m k2 := by
  unfold setA
  by_cases hany : m.any (fun p => p.1 == k) = true
  · rw [if_pos hany]
    unfold lookupA
    rw [find?_beq_map_set_ne k k2 v hne m]
  · rw [if_neg hany]
    unfold lookupA
    rw [List.find?_append]
    have h2 : List.find? (fun p => p.1 == k2) [(k, v)] = none := by
      rw [find?_pair_cons]
      rw [if_neg]
      · rfl
      · simp only [beq_iff_eq]
        exact Ne.symm hne
    rw [h2]
    rw [Option.or_none]

/-! ### C6: BM25 search -/

lemma mem_dedupFirst_aux :
    ∀ (l acc : List PyStr) (t : PyStr),
      t ∈ l.foldl (fun acc x => if acc.contains x then acc else acc ++ [x]) acc →
      t ∈ acc ∨ t ∈ l := by
  intro l
  induction l with
  | nil => intro acc t h; exact Or.inl h
  | cons a as ih =>
    intro acc t h
    rw [List.foldl_cons] at h
    rcases ih _ t h with h2 | h2
    · by_cases hc : (acc.contains a) = true
      · rw [if_pos hc] at h2
        exact Or.inl h2
      · rw [if_neg hc] at h2
        rw [List.mem_append, List.mem_singleton] at h2
        cases h2 with
        | inl h3 => exact Or.inl h3
        | inr h3 => exact Or.inr (by rw [h3]; exact List.mem_cons_self a as)
    · exact Or.inr (List.mem_cons_of_mem a h2)

lemma mem_dedupFirst {t : PyStr} {l : List PyStr} (h : t ∈ dedupFirst l) : t ∈ l := by
  rcases mem_dedupFirst_aux l [] t h with h2 | h2
  · exact absurd h2 (List.not_mem_nil t)
  · exact h2

lemma lookupA_bumpFreq_fold :
    ∀ (ts : List PyStr) (m : List (PyStr × ℕ)) (t : PyStr),
      lookupA (ts.foldl bumpFreq m) t ≠ none → t ∈ ts ∨ lookupA m t ≠ none := by
  intro ts
  induction ts with
  | nil => intro m t h; exact Or.inr h
  | cons tok toks ih =>
    intro m t h
    rw [List.foldl_cons] at h
    rcases ih _ t h with h2 | h2
    · exact Or.inl (List.mem_cons_of_mem tok h2)
    · by_cases he : t = tok
      · exact Or.inl (by rw [he]; exact List.mem_cons_self tok toks)
      · right
        unfold bumpFreq at h2
        rw [lookupA_setA_ne m tok t _ he] at h2
        exact h2

lemma doc_freqs_keys :
    ∀ (tds : List (List PyStr)) (m : List (PyStr × ℕ)) (t : PyStr),
      lookupA (tds.foldl (fun freqs doc_tokens => (dedupFirst doc_tokens).foldl bumpFreq freqs) m) t ≠ none →
      (∃ d ∈ tds, t ∈ d) ∨ lookupA m t ≠ none := by
  intro tds
  induction tds with
  | nil => intro m t h; exact Or.inr h
  | cons d ds ih =>
    intro m t h
    rw [List.foldl_cons] at h
    rcases ih _ t h with h2 | h2
    · obtain ⟨d2, hd2, ht2⟩ := h2
      exact Or.inl ⟨d2, List.mem_cons_of_mem d hd2, ht2⟩
    · rcases lookupA_bumpFreq_fold _ _ t h2 with h3 | h3
      · exact Or.inl ⟨d, List.mem_cons_self d ds, mem_dedupFirst h3⟩
      · exact Or.inr h3

lemma lookupA_map_pair_none {β γ : Type} (g : PyStr × β → γ) :
    ∀ (m : List (PyStr × β)) (k : PyStr),
      lookupA (m.map (fun p => (p.1, g p))) k = none ↔ lookupA m k = none := by
  intro m k
  induction m with
  | nil => exact ⟨fun _ => rfl, fun _ => rfl⟩
  | cons q qs ih =>
    rw [List.map_cons, lookupA_cons, lookupA_cons]
    dsimp only
    by_cases hq : (q.1 == k) = true
    · rw [if_pos hq, if_pos hq]
      simp
    · rw [if_neg hq, if_neg hq]
      exact ih

lemma scoreToken_fold_skip (m : BM25Matcher) (dt : List PyStr) (dl : ℚ) :
    ∀ (ts : List PyStr), (∀ t ∈ ts, lookupA m.idf t = none) → ∀ (z : ℚ),
      ts.foldl (scoreToken m dt dl) z = z := by
  intro ts
  induction ts with
  | nil => intro _ z; rfl
  | cons tok toks ih =>
    intro h z
    rw [List.foldl_cons]
    have hz : scoreToken m dt dl z tok = z := by
      unfold scoreToken
      rw [h tok (List.mem_cons_self tok toks)]
    rw [hz]
    exact ih (fun t ht => h t (List.mem_cons_of_mem tok ht)) z

lemma score_document_zero (m : BM25Matcher) (q : PyStr) (i : ℕ)
    (h : ∀ t ∈ bm25_tokenize q, lookupA m.idf t = none) : score_document m q i = 0 := by
  unfold score_document
  by_cases hlen : m.documents.length ≤ i
  · rw [if_pos hlen]
  · rw [if_neg hlen]
    exact scoreToken_fold_skip m _ _ (bm25_tokenize q) h 0

/-- C6: for every corpus and query, `BM25Matcher.search` returns only
documents with strictly positive score, in descending score order with
ties broken by the original insertion order (the smaller document index
first), truncated to `top_k`; and for a query sharing no token with any
indexed document it returns the empty list — for any BM25 parameters and
any logarithm function used for the IDF values. -/
theorem bm25_search_spec (k1 b : ℚ) (log : ℚ → ℚ) (documents : List PyStr)
    (query : PyStr) (top_k : ℕ) :
    (∀ p ∈ (index_documents log (BM25Matcher.init k1 b) documents).search query top_k,
      (0:ℚ) < p.2) ∧
    ((index_documents log (BM25Matcher.init k1 b) documents).search query top_k).Pairwise RankOrder ∧
    ((index_documents log (BM25Matcher.init k1 b) documents).search query top_k).length ≤ top_k ∧
    ((∀ t ∈ bm25_tokenize query, ∀ d ∈ documents, t ∉ bm25_tokenize d) →
      (index_documents log (BM25Matcher.init k1 b) documents).search query top_k = []) := by
  refine ⟨?_, ?_, ?_, ?_⟩
  · intro p hp
    unfold BM25Matcher.search at hp
    have h2 := (List.take_sublist _ _).subset hp
    rw [(sortDesc_perm _ _).mem_iff] at h2
    have h3 := List.of_mem_filter h2
    exact of_decide_eq_true h3
  · unfold BM25Matcher.search
    apply List.Pairwise.sublist (List.take_sublist _ _)
    have hpw : (((List.range (index_documents log (BM25Matcher.init k1 b) documents).documents.length).map
        (fun i => (i, score_document (index_documents log (BM25Matcher.init k1 b) documents) query i))).filter
          (fun p => decide ((0:ℚ) < p.2))).Pairwise (fun a b : ℕ × ℚ => a.1 < b.1) := by
      apply List.Pairwise.sublist (List.filter_sublist _)
      apply List.Pairwise.map
      · intro a b hab
        exact hab
      · exact List.pairwise_lt_range _
    exact sortDesc_stable (fun p : ℕ × ℚ => p.2) (fun p : ℕ × ℚ => p.1) _ hpw
  · unfold BM25Matcher.search
    exact List.length_take_le _ _
  · intro hdisj
    unfold BM25Matcher.search
    have hzero : ∀ i, score_document (index_documents log (BM25Matcher.init k1 b) documents) query i = 0 := by
      intro i
      apply score_document_zero
      intro t ht
      cases hx : lookupA (index_documents log (BM25Matcher.init k1 b) documents).idf t with
      | none => rfl
      | some v =>
        exfalso
        have hne : lookupA (index_documents log (BM25Matcher.init k1 b) documents).idf t ≠ none := by
          rw [hx]; exact Option.some_ne_none v
        unfold index_documents at hne
        rw [Ne, lookupA_map_pair_none] at hne
        rcases doc_freqs_keys _ [] t hne with h2 | h2
        · obtain ⟨d2, hd2, ht2⟩ := h2
          rw [List.mem_map] at hd2
          obtain ⟨d0, hd0, rfl⟩ := hd2
          exact hdisj t ht d0 hd0 ht2
        · exact h2 rfl
    have hfilter : (((List.range (index_documents log (BM25Matcher.init k1 b) documents).documents.length).map
        (fun i => (i, score_document (index_documents log (BM25Matcher.init k1 b) documents) query i))).filter
          (fun p => decide ((0:ℚ) < p.2))) = [] := by
      rw [List.filter_eq_nil_iff]
      intro p hp
      rw [List.mem_map] at hp
      obtain ⟨i, _, rfl⟩ := hp
      rw [hzero i]
      simp
    rw [hfilter]
    simp [sortDesc]

/-- Witness for C6: a concrete query sharing no token with the corpus. -/
theorem bm25_search_spec_witness :
    (∀ t ∈ bm25_tokenize "zebra".data, ∀ d ∈ (["a cat sat"].map String.data),
      t ∉ bm25_tokenize d) ∧
    (index_documents (fun _ => 0) (BM25Matcher.init 0 0) (["a cat sat"].map String.data)).search
      "zebra".data 5 = [] :=
  ⟨by decide,
    (bm25_search_spec 0 0 (fun _ => 0) (["a cat sat"].map String.data) "zebra".data 5).2.2.2
      (by decide)⟩

/-! ### C5: the two best-score maps and merge of normal search -/

lemma lookupA_bestInsert_ne {μ : Type} (m : List (ℕ × NRecord μ)) (r : NRecord μ) (k : ℕ)
    (h : k ≠ r.id) : lookupA (bestInsert m r) k = lookupA m k := by
  unfold bestInsert
  cases hx : lookupA m r.id with
  | none => exact lookupA_setA_ne m r.id k r h
  | some prev =>
    dsimp only
    by_cases hs : prev.score < r.score
    · rw [if_pos hs]
      exact lookupA_setA_ne m r.id k r h
    · rw [if_neg hs]

lemma lookupA_bestInsert_self {μ : Type} (m : List (ℕ × NRecord μ)) (r : NRecord μ) :
    lookupA (bestInsert m r) r.id = some (match lookupA m r.id with
      | none => r
      | some prev => if prev.score < r.score then r else prev) := by
  unfold bestInsert
  cases hx : lookupA m r.id with
  | none => exact lookupA_setA_self m r.id r
  | some prev =>
    dsimp only
    by_cases hs : prev.score < r.score
    · rw [if_pos hs, if_pos hs]
      exact lookupA_setA_self m r.id r
    · rw [if_neg hs, if_neg hs]
      exact hx

lemma bestFold_spec {μ : Type} :
    ∀ (rs : List (NRecord μ)) (m : List (ℕ × NRecord μ)) (k : ℕ),
      (lookupA (bestFold m rs) k = none → lookupA m k = none ∧ ∀ r ∈ rs, r.id ≠ k) ∧
      (∀ v, lookupA (bestFold m rs) k = some v →
        (lookupA m k = some v ∨ (∃ r ∈ rs, r.id = k ∧ r = v)) ∧
        (∀ r ∈ rs, r.id = k → r.score ≤ v.score) ∧
        (∀ u, lookupA m k = some u → u.score ≤ v.score)) := by
  intro rs
  induction rs with
  | nil =>
    intro m k
    refine ⟨fun h => ⟨h, fun r hr => absurd hr (List.not_mem_nil r)⟩, fun v hv => ?_⟩
    refine ⟨Or.inl hv, fun r hr => absurd hr (List.not_mem_nil r), fun u hu => ?_⟩
    have h2 : u = v := by
      have := hu.symm.trans hv
      injection this
    rw [h2]
  | cons r0 rs ih =>
    intro m k
    have hfold : bestFold m (r0 :: rs) = bestFold (bestInsert m r0) rs := rfl
    by_cases hk : r0.id = k
    · subst hk
      have hself := lookupA_bestInsert_self m r0
      constructor
      · intro h
        rw [hfold] at h
        have h2 := ((ih (bestInsert m r0) r0.id).1 h).1
        rw [hself] at h2
        exact absurd h2 (Option.some_ne_none _)
      · intro v hv
        rw [hfold] at hv
        obtain ⟨horigin, hbound, hold⟩ := (ih (bestInsert m r0) r0.id).2 v hv
        have hwle : (match lookupA m r0.id with
            | none => r0
            | some prev => if prev.score < r0.score then r0 else prev).score ≤ v.score :=
          hold _ hself
        refine ⟨?_, ?_, ?_⟩
        · cases horigin with
          | inl h2 =>
            rw [hself] at h2
            injection h2 with h3
            cases hx : lookupA m r0.id with
            | none =>
              right
              refine ⟨r0, List.mem_cons_self r0 rs, rfl, ?_⟩
              rw [← h3, hx]
            | some prev =>
              rw [hx] at h3
              dsimp only at h3
              by_cases hs : prev.score < r0.score
              · rw [if_pos hs] at h3
                exact Or.inr ⟨r0, List.mem_cons_self r0 rs, rfl, h3⟩
              · rw [if_neg hs] at h3
                left
                rw [h3]
          | inr h2 =>
            obtain ⟨r, hr, hrid, hrv⟩ := h2
            exact Or.inr ⟨r, List.mem_cons_of_mem r0 hr, hrid, hrv⟩
        · intro r hr hrid
          rw [List.mem_cons] at hr
          cases hr with
          | inl h2 =>
            subst h2
            refine le_trans ?_ hwle
            cases hx : lookupA m r.id with
            | none => exact le_refl _
            | some prev =>
              dsimp only
              by_cases hs : prev.score < r.score
              · rw [if_pos hs]
              · rw [if_neg hs]
                exact not_lt.mp hs
          | inr h2 => exact hbound r h2 hrid
        · intro u hu
          refine le_trans ?_ hwle
          rw [hu]
          dsimp only
          by_cases hs : u.score < r0.score
          · rw [if_pos hs]
            exact le_of_lt hs
          · rw [if_neg hs]
    · have hne : k ≠ r0.id := fun hh => hk hh.symm
      have hins := lookupA_bestInsert_ne m r0 k hne
      constructor
      · intro h
        rw [hfold] at h
        obtain ⟨h2, h3⟩ := (ih (bestInsert m r0) k).1 h
        rw [hins] at h2
        refine ⟨h2, fun r hr => ?_⟩
        rw [List.mem_cons] at hr
        cases hr with
        | inl h4 => rw [h4]; exact hk
        | inr h4 => exact h3 r h4
      · intro v hv
        rw [hfold] at hv
        obtain ⟨horigin, hbound, hold⟩ := (ih (bestInsert m r0) k).2 v hv
        rw [hins] at horigin
        refine ⟨?_, ?_, ?_⟩
        · cases horigin with
          | inl h2 => exact Or.inl h2
          | inr h2 =>
            obtain ⟨r, hr, hrid, hrv⟩ := h2
            exact Or.inr ⟨r, List.mem_cons_of_mem r0 hr, hrid, hrv⟩
        · intro r hr hrid
          rw [List.mem_cons] at hr
          cases hr with
          | inl h2 => rw [h2] at hrid; exact absurd hrid hk
          | inr h2 => exact hbound r h2 hrid
        · intro u hu
          rw [← hins] at hu
          exact hold u hu

lemma termRecords_cons {μ : Type} (calibrate : ℚ → ℚ) (term : PyStr) (r : Hit μ)
    (hs : List (Hit μ)) :
    termRecords calibrate term (r :: hs) =
      hitRecord calibrate term r :: termRecords calibrate term hs := rfl

lemma processHits_eq {μ : Type} (calibrate : ℚ → ℚ) (nq term : PyStr) :
    ∀ (hits : List (Hit μ)) (d e : List (ℕ × NRecord μ)),
      processHits calibrate nq term hits (d, e) =
        (if term == nq then bestFold d (termRecords calibrate term hits) else d,
         if term == nq then e
         else bestFold e ((termRecords calibrate term hits).map penalizeRecord)) := by
  intro hits
  induction hits with
  | nil =>
    intro d e
    by_cases h : (term == nq) = true
    · rw [if_pos h, if_pos h]
      rfl
    · rw [if_neg h, if_neg h]
      rfl
  | cons r hs ih =>
    intro d e
    have hstep : processHits calibrate nq term (r :: hs) (d, e) =
        if (term == nq) = true then
          processHits calibrate nq term hs (bestInsert d (hitRecord calibrate term r), e)
        else
          processHits calibrate nq term hs
            (d, bestInsert e (penalizeRecord (hitRecord calibrate term r))) := by
      show processHits calibrate nq term hs
          (if (term == nq) = true then (bestInsert d (hitRecord calibrate term r), e)
           else (d, bestInsert e (penalizeRecord (hitRecord calibrate term r)))) = _
      by_cases h : (term == nq) = true
      · rw [if_pos h, if_pos h]
      · rw [if_neg h, if_neg h]
    rw [hstep]
    by_cases h : (term == nq) = true
    · rw [if_pos h, ih]
      simp only [if_pos h, termRecords_cons]
      rfl
    · rw [if_neg h, ih]
      simp only [if_neg h, termRecords_cons, List.map_cons]
      rfl

lemma searchMaps_fold_eq {μ : Type} (calibrate : ℚ → ℚ) (searchFn : PyStr → ℕ → List (Hit μ))
    (nq : PyStr) (top_k : ℕ) :
    ∀ (terms : List PyStr) (d e : List (ℕ × NRecord μ)),
      terms.foldl (fun maps term =>
        processHits calibrate nq term (searchFn term (min top_k 10)) maps) (d, e) =
      (bestFold d (directRecords calibrate searchFn nq terms top_k),
       bestFold e (expandedRecords calibrate searchFn nq terms top_k)) := by
  intro terms
  induction terms with
  | nil => intro d e; rfl
  | cons term ts ih =>
    intro d e
    rw [List.foldl_cons, processHits_eq]
    by_cases h : (term == nq) = true
    · rw [if_pos h, if_pos h, ih]
      have hd : directRecords calibrate searchFn nq (term :: ts) top_k =
          termRecords calibrate term (searchFn term (min top_k 10)) ++
            directRecords calibrate searchFn nq ts top_k := by
        unfold directRecords
        rw [List.map_cons, List.flatten_cons, if_pos h]
      have he : expandedRecords calibrate searchFn nq (term :: ts) top_k =
          expandedRecords calibrate searchFn nq ts top_k := by
        unfold expandedRecords
        rw [List.map_cons, List.flatten_cons, if_pos h, List.nil_append]
      rw [hd, he]
      unfold bestFold
      rw [List.foldl_append]
    · rw [if_neg h, if_neg h, ih]
      have hd : directRecords calibrate searchFn nq (term :: ts) top_k =
          directRecords calibrate searchFn nq ts top_k := by
        unfold directRecords
        rw [List.map_cons, List.flatten_cons, if_neg h, List.nil_append]
      have he : expandedRecords calibrate searchFn nq (term :: ts) top_k =
          (termRecords calibrate term (searchFn term (min top_k 10))).map penalizeRecord ++
            expandedRecords calibrate searchFn nq ts top_k := by
        unfold expandedRecords
        rw [List.map_cons, List.flatten_cons, if_neg h]
      rw [hd, he]
      unfold bestFold
      rw [List.foldl_append]

lemma searchMaps_eq {μ : Type} (calibrate : ℚ → ℚ) (searchFn : PyStr → ℕ → List (Hit μ))
    (query : PyStr) (top_k : ℕ) :
    searchMaps calibrate searchFn query top_k =
      (bestFold [] (directRecords calibrate searchFn (normalized_query query)
        ((ordered_terms query).take (max_terms query)) top_k),
       bestFold [] (expandedRecords calibrate searchFn (normalized_query query)
        ((ordered_terms query).take (max_terms query)) top_k)) := by
  unfold searchMaps
  exact searchMaps_fold_eq calibrate searchFn (normalized_query query) top_k
    ((ordered_terms query).take (max_terms query)) [] []

lemma keysA_setA_nodup {κ β : Type} [BEq κ] [LawfulBEq κ] (m : List (κ × β)) (k : κ) (v : β)
    (h : (keysA m).Nodup) : (keysA (setA m k v)).Nodup := by
  unfold setA
  by_cases hany : m.any (fun p => p.1 == k) = true
  · rw [if_pos hany]
    have heq : keysA (m.map (fun p => if p.1 == k then (k, v) else p)) = keysA m := by
      unfold keysA
      rw [List.map_map]
      apply List.map_congr_left
      intro p _
      by_cases hp : (p.1 == k) = true
      · have : p.1 = k := by simpa using hp
        simp [Function.comp, hp, this]
      · simp [Function.comp, hp]
    rw [heq]
    exact h
  · rw [if_neg hany]
    unfold keysA
    rw [List.map_append]
    refine List.Nodup.append h (List.nodup_singleton k) ?_
    intro a ha hb
    simp only [List.map_cons, List.map_nil, List.mem_singleton] at hb
    rw [List.mem_map] at ha
    obtain ⟨p, hp, hpk⟩ := ha
    have hanyf : m.any (fun p => p.1 == k) = false := by
      cases hx : m.any (fun p => p.1 == k)
      · rfl
      · exact absurd hx hany
    exact List.any_eq_false.mp hanyf p hp (by simp [hpk, hb])

lemma bestFold_keys_nodup {μ : Type} :
    ∀ (rs : List (NRecord μ)) (m : List (ℕ × NRecord μ)),
      (keysA m).Nodup → (keysA (bestFold m rs)).Nodup := by
  intro rs
  induction rs with
  | nil => intro m h; exact h
  | cons r rs ih =>
    intro m h
    show (keysA (bestFold (bestInsert m r) rs)).Nodup
    apply ih
    unfold bestInsert
    cases hx : lookupA m r.id with
    | none => exact keysA_setA_nodup m r.id r h
    | some prev =>
      dsimp only
      by_cases hs : prev.score < r.score
      · rw [if_pos hs]
        exact keysA_setA_nodup m r.id r h
      · rw [if_neg hs]
        exact h

lemma updateA_lookup_nomem {κ β : Type} [BEq κ] [LawfulBEq κ] :
    ∀ (ps : List (κ × β)) (m : List (κ × β)) (k : κ), k ∉ keysA ps →
      lookupA (ps.foldl (fun acc p => setA acc p.1 p.2) m) k = lookupA m k := by
  intro ps
  induction ps with
  | nil => intro m k _; rfl
  | cons p ps ih =>
    intro m k hk
    rw [List.foldl_cons]
    have hk1 : k ≠ p.1 := by
      intro hh
      exact hk (by rw [hh]; exact List.mem_cons_self p.1 (keysA ps))
    have hk2 : k ∉ keysA ps := fun hh => hk (List.mem_cons_of_mem p.1 hh)
    rw [ih _ k hk2]
    exact lookupA_setA_ne m p.1 k p.2 hk1

lemma updateA_lookup_some {κ β : Type} [BEq κ] [LawfulBEq κ] :
    ∀ (m₂ m₁ : List (κ × β)) (k : κ) (v : β), (keysA m₂).Nodup →
      lookupA m₂ k = some v → lookupA (updateA m₁ m₂) k = some v := by
  intro m₂
  induction m₂ with
  | nil =>
    intro m₁ k v _ hv
    exact absurd hv (by exact Option.noConfusion)
  | cons p ps ih =>
    intro m₁ k v hnd hv
    rw [lookupA_cons] at hv
    unfold updateA
    rw [List.foldl_cons]
    by_cases hp : (p.1 == k) = true
    · rw [if_pos hp] at hv
      injection hv with hv2
      have hpk : p.1 = k := by simpa using hp
      have hknotin : k ∉ keysA ps := by
        have := hnd
        unfold keysA at this
        rw [List.map_cons, List.nodup_cons] at this
        rw [← hpk]
        exact this.1
      rw [updateA_lookup_nomem ps _ k hknotin]
      rw [← hpk, lookupA_setA_self, hv2]
    · rw [if_neg hp] at hv
      have hnd2 : (keysA ps).Nodup := by
        have := hnd
        unfold keysA at this ⊢
        rw [List.map_cons, List.nodup_cons] at this
        exact this.2
      exact ih _ k v hnd2 hv

lemma updateA_lookup_none {κ β : Type} [BEq κ] [LawfulBEq κ] :
    ∀ (m₂ m₁ : List (κ × β)) (k : κ), lookupA m₂ k = none →
      lookupA (updateA m₁ m₂) k = lookupA m₁ k := by
  intro m₂
  induction m₂ with
  | nil => intro m₁ k _; rfl
  | cons p ps ih =>
    intro m₁ k hv
    rw [lookupA_cons] at hv
    by_cases hp : (p.1 == k) = true
    · rw [if_pos hp] at hv
      exact absurd hv (Option.some_ne_none _)
    · rw [if_neg hp] at hv
      have hk1 : k ≠ p.1 := by
        intro hh
        exact hp (by simp [hh])
      show lookupA (updateA (setA m₁ p.1 p.2) ps) k = lookupA m₁ k
      rw [ih (setA m₁ p.1 p.2) k hv]
      exact lookupA_setA_ne m₁ p.1 k p.2 hk1

lemma expandedRecords_score {μ : Type} (calibrate : ℚ → ℚ)
    (searchFn : PyStr → ℕ → List (Hit μ)) (nq : PyStr) (terms : List PyStr) (top_k : ℕ) :
    ∀ er ∈ expandedRecords calibrate searchFn nq terms top_k,
      er.score = calibrate er.raw_score * expansion_penalty := by
  intro er her
  unfold expandedRecords at her
  rw [List.mem_flatten] at her
  obtain ⟨chunk, hchunk, hmem⟩ := her
  rw [List.mem_map] at hchunk
  obtain ⟨term, _, rfl⟩ := hchunk
  by_cases h : (term == nq) = true
  · rw [if_pos h] at hmem
    exact absurd hmem (List.not_mem_nil er)
  · rw [if_neg h] at hmem
    rw [List.mem_map] at hmem
    obtain ⟨r0, hr0, rfl⟩ := hmem
    unfold termRecords at hr0
    rw [List.mem_map] at hr0
    obtain ⟨hit, _, rfl⟩ := hr0
    rfl

/-- C5: in normal search, for every image id present in the direct
(verbatim-term) best-score map, the merged map carries the direct entry
(so where both maps have the id, the direct score wins); an expanded-only
id carries its expanded best entry, whose score is its best calibrated
score multiplied by the 0.85 penalty (it dominates every other expanded
record for that id, and every expanded record's score is a calibrated
score times 0.85); and the returned list is sorted by score descending
with at most `top_k` entries. -/
theorem normal_search_spec {μ : Type} (calibrate : ℚ → ℚ)
    (searchFn : PyStr → ℕ → List (Hit μ)) (query : PyStr) (top_k : ℕ) :
    (∀ (id : ℕ) (r : NRecord μ),
      lookupA (searchMaps calibrate searchFn query top_k).1 id = some r →
      lookupA (updateA (searchMaps calibrate searchFn query top_k).2
        (searchMaps calibrate searchFn query top_k).1) id = some r) ∧
    (∀ (id : ℕ) (r : NRecord μ),
      lookupA (searchMaps calibrate searchFn query top_k).1 id = none →
      lookupA (searchMaps calibrate searchFn query top_k).2 id = some r →
      lookupA (updateA (searchMaps calibrate searchFn query top_k).2
        (searchMaps calibrate searchFn query top_k).1) id = some r ∧
      r.score = calibrate r.raw_score * expansion_penalty ∧
      (∀ er ∈ expandedRecords calibrate searchFn (normalized_query query)
          ((ordered_terms query).take (max_terms query)) top_k,
        er.id = id → er.score ≤ r.score)) ∧
    (normal_search calibrate searchFn query top_k).Pairwise
      (fun a b => b.score ≤ a.score) ∧
    (normal_search calibrate searchFn query top_k).length ≤ top_k := by
  refine ⟨?_, ?_, ?_, ?_⟩
  · intro id r hr
    apply updateA_lookup_some _ _ id r _ hr
    rw [searchMaps_eq]
    exact bestFold_keys_nodup _ [] List.nodup_nil
  · intro id r hnone hsome
    refine ⟨?_, ?_, ?_⟩
    · rw [updateA_lookup_none _ _ id hnone]
      exact hsome
    · have h2 := hsome
      rw [searchMaps_eq] at h2
      obtain ⟨horigin, _, _⟩ := (bestFold_spec _ [] id).2 r h2
      cases horigin with
      | inl h3 => exact absurd h3 (by exact Option.noConfusion)
      | inr h3 =>
        obtain ⟨er, her, _, hrv⟩ := h3
        rw [← hrv]
        exact expandedRecords_score calibrate searchFn _ _ top_k er her
    · intro er her herid
      have h2 := hsome
      rw [searchMaps_eq] at h2
      obtain ⟨_, hbound, _⟩ := (bestFold_spec _ [] id).2 r h2
      exact hbound er her herid
  · unfold normal_search
    by_cases hempty :
        (updateA (searchMaps calibrate searchFn query top_k).2
          (searchMaps calibrate searchFn query top_k).1).isEmpty = true
    · rw [if_pos hempty]
      exact List.Pairwise.nil
    · rw [if_neg hempty]
      apply List.Pairwise.map
      · intro a b hab
        exact hab
      · apply List.Pairwise.sublist (List.take_sublist _ _)
        exact sortDesc_sorted (fun r : NRecord μ => r.score) _
  · unfold normal_search
    by_cases hempty :
        (updateA (searchMaps calibrate searchFn query top_k).2
          (searchMaps calibrate searchFn query top_k).1).isEmpty = true
    · rw [if_pos hempty]
      exact Nat.zero_le top_k
    · rw [if_neg hempty]
      rw [List.length_map]
      exact List.length_take_le _ _

/-- Witness for C5 at a concrete query and index: the direct hit for image
10 overrides the expanded entry in the merged map; image 20 is
expanded-only and carries its penalised calibrated score. -/
theorem normal_search_spec_witness :
    lookupA (updateA (searchMaps c5_calibrate c5_searchFn "dog".data 5).2
        (searchMaps c5_calibrate c5_searchFn "dog".data 5).1) 10 =
      some { id := 10, metadata := (), score := c5_calibrate 1, raw_score := 1, matched_term := "dog".data } ∧
    (lookupA (updateA (searchMaps c5_calibrate c5_searchFn "dog".data 5).2
        (searchMaps c5_calibrate c5_searchFn "dog".data 5).1) 20 =
      some { id := 20, metadata := (), score := c5_calibrate 2 * expansion_penalty, raw_score := 2, matched_term := "puppy".data }) ∧
    (normal_search c5_calibrate c5_searchFn "dog".data 5).length ≤ 5 := by
  have hthm := normal_search_spec c5_calibrate c5_searchFn "dog".data 5
  have hd : lookupA (searchMaps c5_calibrate c5_searchFn "dog".data 5).1 10 =
      some { id := 10, metadata := (), score := c5_calibrate 1, raw_score := 1, matched_term := "dog".data } := rfl
  have he1 : lookupA (searchMaps c5_calibrate c5_searchFn "dog".data 5).1 20 = none := rfl
  have he2 : lookupA (searchMaps c5_calibrate c5_searchFn "dog".data 5).2 20 =
      some { id := 20, metadata := (), score := c5_calibrate 2 * expansion_penalty, raw_score := 2, matched_term := "puppy".data } := rfl
  exact ⟨hthm.1 10 _ hd, (hthm.2.1 20 _ he1 he2).1, hthm.2.2.2⟩

end MediaSearch
